import Mathlib

/-!
# assimp_cmd manifest tool: transform flattening and component manifest

A shallow embedding of `tools/assimp_cmd/Main.cpp` (functions `main` and `AddToJson`) together
with the properties of the flattening of node transforms and of the component manifest.

Modelling conventions.

* Matrix entries (`ai_real`, serialised as `double`) are taken from an arbitrary commutative
  ring `R`, so arithmetic is exact.
* Pointers to `aiNode` are addresses into a node store (`List (aiNode R)`); the null pointer is
  `none`.  Dereferencing a null or dangling pointer, and an uncaught exception of the JSON
  library, make the embedded function return `none`.
* `AddToJson` is recursive over an arbitrary pointer graph, so the embedding carries a recursion
  depth budget (`fuel`); `main` supplies a budget that no acyclic graph in the store can exhaust.
* Loop counters (`int i`) are natural numbers: the counts they run up to are the lengths of the
  arrays of a scene held in memory, which are assumed to stay within the range of `int`.
* `std::string` is `String`; the only byte the program searches for is the ASCII full stop, so
  splitting at a character position agrees with splitting at the byte position.
* The C++ standard library (`find_last_of`, `substr`, `to_string`) and the JSON library
  `nlohmann::json` of the header `json.hpp` (`operator[]`, `push_back`, braced initialisers,
  conversion to `int`) are embedded after their documented behaviour.  The matrix class of the
  asset library is declared in headers outside `Main.cpp`; its identity, product and indexing
  are modelled from the specification.
* The importer and the exporter are parameters (`Collaborators`).
-/

namespace AssimpCmd

/-! ## The 4x4 matrix type of the library -/

/-- Row-major 4x4 matrix with the field names of `aiMatrix4x4` (`a1 .. a4` is the first row). -/
structure aiMatrix4x4 (R : Type) where
  a1 : R
  a2 : R
  a3 : R
  a4 : R
  b1 : R
  b2 : R
  b3 : R
  b4 : R
  c1 : R
  c2 : R
  c3 : R
  c4 : R
  d1 : R
  d2 : R
  d3 : R
  d4 : R
deriving DecidableEq

namespace aiMatrix4x4

variable {R : Type}

/-- Modelled from the spec: the default-constructed `aiMatrix4x4`, the identity transform
(the class is declared in the library headers, which are not part of the sources at hand). -/
def identity [Zero R] [One R] : aiMatrix4x4 R :=
  ⟨1, 0, 0, 0,
   0, 1, 0, 0,
   0, 0, 1, 0,
   0, 0, 0, 1⟩

/-- Modelled from the spec: `operator*` of `aiMatrix4x4`, "standard 4x4 matrix multiplication"
of row-major matrices (the operator is defined in the library headers, which are not part of the
sources at hand). -/
def mul [Add R] [Mul R] (m n : aiMatrix4x4 R) : aiMatrix4x4 R :=
  ⟨m.a1 * n.a1 + m.a2 * n.b1 + m.a3 * n.c1 + m.a4 * n.d1,
   m.a1 * n.a2 + m.a2 * n.b2 + m.a3 * n.c2 + m.a4 * n.d2,
   m.a1 * n.a3 + m.a2 * n.b3 + m.a3 * n.c3 + m.a4 * n.d3,
   m.a1 * n.a4 + m.a2 * n.b4 + m.a3 * n.c4 + m.a4 * n.d4,
   m.b1 * n.a1 + m.b2 * n.b1 + m.b3 * n.c1 + m.b4 * n.d1,
   m.b1 * n.a2 + m.b2 * n.b2 + m.b3 * n.c2 + m.b4 * n.d2,
   m.b1 * n.a3 + m.b2 * n.b3 + m.b3 * n.c3 + m.b4 * n.d3,
   m.b1 * n.a4 + m.b2 * n.b4 + m.b3 * n.c4 + m.b4 * n.d4,
   m.c1 * n.a1 + m.c2 * n.b1 + m.c3 * n.c1 + m.c4 * n.d1,
   m.c1 * n.a2 + m.c2 * n.b2 + m.c3 * n.c2 + m.c4 * n.d2,
   m.c1 * n.a3 + m.c2 * n.b3 + m.c3 * n.c3 + m.c4 * n.d3,
   m.c1 * n.a4 + m.c2 * n.b4 + m.c3 * n.c4 + m.c4 * n.d4,
   m.d1 * n.a1 + m.d2 * n.b1 + m.d3 * n.c1 + m.d4 * n.d1,
   m.d1 * n.a2 + m.d2 * n.b2 + m.d3 * n.c2 + m.d4 * n.d2,
   m.d1 * n.a3 + m.d2 * n.b3 + m.d3 * n.c3 + m.d4 * n.d3,
   m.d1 * n.a4 + m.d2 * n.b4 + m.d3 * n.c4 + m.d4 * n.d4⟩

instance [Zero R] [One R] : One (aiMatrix4x4 R) := ⟨identity⟩

instance [Add R] [Mul R] : Mul (aiMatrix4x4 R) := ⟨mul⟩

/-- Over exact numbers the matrices form a monoid, so the product of a list of matrices in
list order (`List.prod`) is available. -/
instance [CommRing R] : Monoid (aiMatrix4x4 R) where
  mul_assoc a b c := by
    show mul (mul a b) c = mul a (mul b c)
    simp only [mul, mk.injEq]
    refine ⟨?_, ?_, ?_, ?_, ?_, ?_, ?_, ?_, ?_, ?_, ?_, ?_, ?_, ?_, ?_, ?_⟩ <;> ring
  one_mul a := by
    show mul identity a = a
    cases a
    simp [mul, identity]
  mul_one a := by
    show mul a identity = a
    cases a
    simp [mul, identity]

/-- Modelled from the spec: row `j` of a row-major matrix, what `operator[]` of `aiMatrix4x4`
points to (the operator is defined in the library headers, which are not part of the sources at
hand).  It returns a null pointer for an index above `3`; that case is the empty row here. -/
def row (m : aiMatrix4x4 R) (j : Nat) : List R :=
  match j with
  | 0 => [m.a1, m.a2, m.a3, m.a4]
  | 1 => [m.b1, m.b2, m.b3, m.b4]
  | 2 => [m.c1, m.c2, m.c3, m.c4]
  | 3 => [m.d1, m.d2, m.d3, m.d4]
  | _ => []

/-- The expression `m[j][k]`: the entry in row `j` and column `k`.  Only indices `0 .. 3` are
ever used; any other index reads as `0` here. -/
def get [Zero R] (m : aiMatrix4x4 R) (j k : Nat) : R :=
  (m.row j).getD k 0

/-- The sixteen entries in row-major order. -/
def toList (m : aiMatrix4x4 R) : List R :=
  [m.a1, m.a2, m.a3, m.a4, m.b1, m.b2, m.b3, m.b4,
   m.c1, m.c2, m.c3, m.c4, m.d1, m.d2, m.d3, m.d4]

/-- The same matrix as a Mathlib matrix, used to check `mul` against the library product. -/
def toMatrix [Zero R] (m : aiMatrix4x4 R) : Matrix (Fin 4) (Fin 4) R :=
  fun j k => m.get j.val k.val

end aiMatrix4x4

/-! ## The JSON value type of the manifest -/

/-- Values of `nlohmann::json`, restricted to the kinds this program creates. -/
inductive Json (R : Type) where
  | null
  | number_integer (n : Int)
  | number_float (x : R)
  | string (s : String)
  | array (elems : List (Json R))
  | object (members : List (String × Json R))

namespace Json

variable {R : Type}

/-- Byte-wise lexicographic order on keys, the order of the `std::map` behind a JSON object. -/
def lexLess : List Char → List Char → Bool
  | [], [] => false
  | [], _ :: _ => true
  | _ :: _, [] => false
  | a :: as, b :: bs => if a < b then true else if b < a then false else lexLess as bs

/-- The key order of a JSON object. -/
def keyLess (a b : String) : Bool := lexLess a.data b.data

/-- Looks a key up among the members of an object. -/
def findMember (key : String) : List (String × Json R) → Option (Json R)
  | [] => none
  | (k, v) :: rest => if key = k then some v else findMember key rest

/-- Stores `v` under `key`: replaces the member with that key, or inserts a new member at its
place in key order. -/
def insertMember (key : String) (v : Json R) : List (String × Json R) → List (String × Json R)
  | [] => [(key, v)]
  | (k, x) :: rest =>
    if key = k then (key, v) :: rest
    else if keyLess key k then (key, v) :: (k, x) :: rest
    else (k, x) :: insertMember key v rest

/-- The statement `j[key] ...` on a mutable value, where `f` is what is done to the referenced
member.  `operator[]` with a string key turns `null` into an empty object, creates a missing
member as `null`, and throws `type_error` on any other kind of value. -/
def updateKey (j : Json R) (key : String) (f : Json R → Option (Json R)) : Option (Json R) :=
  match j with
  | null => (f null).map fun v => object [(key, v)]
  | object ms =>
    (f ((findMember key ms).getD null)).map fun v => object (insertMember key v ms)
  | _ => none

/-- The statement `j[i] ...` on a mutable value, where `f` is what is done to the referenced
element.  `operator[]` with an index turns `null` into an empty array, pads an array that is too
short with `null`, and throws `type_error` on any other kind of value. -/
def updateIdx (j : Json R) (i : Nat) (f : Json R → Option (Json R)) : Option (Json R) :=
  match j with
  | null => (f null).map fun v => array (List.replicate i null ++ [v])
  | array es =>
    if i < es.length then (f (es.getD i null)).map fun v => array (es.set i v)
    else (f null).map fun v => array (es ++ List.replicate (i - es.length) null ++ [v])
  | _ => none

/-- The call `j.push_back(v)`: turns `null` into an array, appends to an array, and throws
`type_error` on any other kind of value. -/
def push_back (j : Json R) (v : Json R) : Option (Json R) :=
  match j with
  | null => some (array [v])
  | array es => some (array (es ++ [v]))
  | _ => none

/-- The elements a consumer iterating over the value sees: those of an array, none for `null`
(whose `size()` is `0`). -/
def elements : Json R → List (Json R)
  | array es => es
  | _ => []

/-- Reads the member `key` of an object without changing it. -/
def member? (j : Json R) (key : String) : Option (Json R) :=
  match j with
  | object ms => findMember key ms
  | _ => none

end Json

/-! ## Nodes and the state `AddToJson` works on -/

/-- The fields of `aiNode` the program touches.  `mParent` and `mChildren` hold addresses into
the node store, `mMeshes` holds indices into the mesh array of the scene; the counts
`mNumChildren` and `mNumMeshes` are the lengths of the two lists. -/
structure aiNode (R : Type) where
  mName : String
  mTransformation : aiMatrix4x4 R
  mParent : Option Nat
  mChildren : List Nat
  mMeshes : List Nat
deriving DecidableEq

/-- The mutable state reachable from `AddToJson`: the nodes of the scene and the global
`scenario_json`. -/
structure World (R : Type) where
  nodes : List (aiNode R)
  scenario_json : Json R

section Flattener

variable {R : Type}

open Json

/-- Line 186, `int mesh_id = scenario_json["components"][idx]["id"]`.  The read succeeds when
`components` is an array with more than `idx` elements whose element `idx` is an object with an
integer member `id`.  On every other path `operator[]` creates a `null` value or meets a value
of the wrong kind, and the conversion to `int` throws; such a path is `none`.  (A floating-point
`id` would be truncated by the library; this program stores ids from an `int` only, and the
case is `none` here.) -/
def readMeshId (scenario_json : Json R) (idx : Nat) : Option Int :=
  match scenario_json with
  | object ms =>
    match findMember "components" ms with
    | some (array cs) =>
      match cs[idx]? with
      | some (object fields) =>
        match findMember "id" fields with
        | some (number_integer n) => some n
        | _ => none
      | _ => none
    | _ => none
  | _ => none

/-- Lines 192-197: `component["transform"]` becomes an array of 16 zeros, then entry `j*4+k`
is overwritten with `m[j][k]` for `j`, `k` in `0 .. 3`. -/
def writeTransform [Zero R] (component : Json R) (m : aiMatrix4x4 R) : Option (Json R) :=
  (component.updateKey "transform"
      fun _ => some (array (List.replicate 16 (number_float 0)))).bind fun c0 =>
    (List.range 4).foldlM (fun c1 j =>
      (List.range 4).foldlM (fun c2 k =>
        c2.updateKey "transform" fun t =>
          t.updateIdx (j * 4 + k) fun _ => some (number_float (m.get j k))) c1) c0

/-- Lines 183-198, the body of the loop over the mesh slots of a node: read the id of mesh
`idx`, build the record and append it to `scenario_json["assembly"]`. -/
def emitMesh [Zero R] (m : aiMatrix4x4 R) (scenario_json : Json R) (idx : Nat) :
    Option (Json R) :=
  (readMeshId scenario_json idx).bind fun mesh_id =>
    (writeTransform (object [("component", number_integer mesh_id)]) m).bind fun component =>
      scenario_json.updateKey "assembly" fun a => a.push_back component

/-- Lines 180-200: the guarded loop over the mesh slots of a node. -/
def emitMeshes [Zero R] (mMeshes : List Nat) (m : aiMatrix4x4 R) (scenario_json : Json R) :
    Option (Json R) :=
  if mMeshes.length > 0 then mMeshes.foldlM (emitMesh m) scenario_json
  else some scenario_json

/-- Lines 175-177: the new value of `pcNode->mTransformation`.  A node without parent keeps its
transform; otherwise the transform currently held by the parent is multiplied from the left. -/
def composeWithParent [Add R] [Mul R] (nodes : List (aiNode R)) (node : aiNode R) :
    Option (aiMatrix4x4 R) :=
  match node.mParent with
  | none => some node.mTransformation
  | some parent =>
    (nodes[parent]?).map fun (p : aiNode R) => p.mTransformation * node.mTransformation

/-- Lines 172-206.  `fuel` bounds the recursion depth; `none` stands for a null or dangling
pointer dereference, an exception of the JSON library, or an exhausted budget. -/
def AddToJson [Zero R] [Add R] [Mul R] : Nat → Nat → World R → Option (World R)
  | 0, _, _ => none
  | fuel + 1, pcNode, w =>
    (w.nodes[pcNode]?).bind fun node =>
      (composeWithParent w.nodes node).bind fun t =>
        (emitMeshes node.mMeshes t w.scenario_json).bind fun sj =>
          node.mChildren.foldlM (fun w1 child => AddToJson fuel child w1)
            ⟨w.nodes.set pcNode { node with mTransformation := t }, sj⟩

end Flattener

/-! ## Node trees -/

/-- A finite forest of nodes in first-child / next-sibling form: `cons addr name m meshes
children siblings` is the node stored at address `addr` with local transform `m` and mesh slots
`meshes`, followed by its later siblings.  A node tree is a forest with one top-level node. -/
inductive NodeForest (R : Type) where
  | nil
  | cons (addr : Nat) (name : String) (m : aiMatrix4x4 R) (meshes : List Nat)
      (children : NodeForest R) (siblings : NodeForest R)

namespace NodeForest

variable {R : Type}

/-- The tree with the given root and the given forest of child subtrees. -/
def tree (addr : Nat) (name : String) (m : aiMatrix4x4 R) (meshes : List Nat)
    (children : NodeForest R) : NodeForest R :=
  cons addr name m meshes children nil

/-- Addresses of the top-level nodes, in stored order (the `mChildren` array of their parent). -/
def roots : NodeForest R → List Nat
  | nil => []
  | cons addr _ _ _ _ siblings => addr :: roots siblings

/-- Addresses of all nodes, in depth-first pre-order. -/
def addrs : NodeForest R → List Nat
  | nil => []
  | cons addr _ _ _ children siblings => addr :: (addrs children ++ addrs siblings)

/-- Number of levels of the forest. -/
def depth : NodeForest R → Nat
  | nil => 0
  | cons _ _ _ _ children siblings => max (depth children + 1) (depth siblings)

/-- All mesh slots of all nodes, in depth-first pre-order. -/
def meshSlots : NodeForest R → List Nat
  | nil => []
  | cons _ _ _ meshes children siblings => meshes ++ (meshSlots children ++ meshSlots siblings)

/-- The mesh-slot counts of all nodes, one entry per node. -/
def slotCounts : NodeForest R → List Nat
  | nil => []
  | cons _ _ _ meshes children siblings =>
    meshes.length :: (slotCounts children ++ slotCounts siblings)

/-- Every node with the local transforms on the path from its top-level ancestor down to the
node itself (ancestor first, node last). -/
def paths : NodeForest R → List (Nat × List (aiMatrix4x4 R))
  | nil => []
  | cons addr _ m _ children siblings =>
    (addr, [m]) :: ((paths children).map (fun p => (p.1, m :: p.2)) ++ paths siblings)

/-- The store holds the forest: each node sits at its address with its local transform, its mesh
slots, the addresses of its children in order, and a parent pointer to its tree parent
(`parent` for the top-level nodes). -/
def Stored (nodes : List (aiNode R)) : Option Nat → NodeForest R → Prop
  | _, nil => True
  | parent, cons addr name m meshes children siblings =>
    nodes[addr]? = some ⟨name, m, parent, roots children, meshes⟩
      ∧ Stored nodes (some addr) children ∧ Stored nodes parent siblings

end NodeForest

/-! ## Descriptions of the result

The functions of this section are not translations of code.  They state, as pure functions of a
node tree, what a run of `AddToJson` is proved to leave in the node store and in the manifest,
and the predicates name the conditions under which the run is considered. -/

section Results

variable {R : Type}

open Json NodeForest

/-- What lines 175-177 leave in `mTransformation`: the local transform for a node without
parent, otherwise the product of the transform of the parent and the local transform. -/
def compose [Add R] [Mul R] (parentT : Option (aiMatrix4x4 R)) (m : aiMatrix4x4 R) :
    aiMatrix4x4 R :=
  match parentT with
  | none => m
  | some p => p * m

/-- Every node of the forest with its absolute transform, in depth-first pre-order; `parentT` is
the absolute transform of the common parent of the top-level nodes, if they have one. -/
def flattened [Add R] [Mul R] (parentT : Option (aiMatrix4x4 R)) :
    NodeForest R → List (Nat × aiMatrix4x4 R)
  | nil => []
  | cons addr _ m _ children siblings =>
    (addr, compose parentT m)
      :: (flattened (some (compose parentT m)) children ++ flattened parentT siblings)

/-- The depth-first pre-order listing of the mesh instances: the slots of a node first, each
with the absolute transform of the node, then the complete listings of its child subtrees in
stored order, then those of its later siblings. -/
def instances [Add R] [Mul R] (parentT : Option (aiMatrix4x4 R)) :
    NodeForest R → List (Nat × aiMatrix4x4 R)
  | nil => []
  | cons _ _ m meshes children siblings =>
    meshes.map (fun idx => (idx, compose parentT m))
      ++ (instances (some (compose parentT m)) children ++ instances parentT siblings)

/-- What one call of `AddToJson` works with: the address of the node, its absolute transform,
its mesh slots and the forest of its child subtrees. -/
structure Visit (R : Type) where
  addr : Nat
  absT : aiMatrix4x4 R
  meshes : List Nat
  children : NodeForest R

/-- The calls of `AddToJson` on a forest in the order they are made (depth-first pre-order). -/
def visits [Add R] [Mul R] (parentT : Option (aiMatrix4x4 R)) :
    NodeForest R → List (Visit R)
  | nil => []
  | cons addr _ m meshes children siblings =>
    ⟨addr, compose parentT m, meshes, children⟩
      :: (visits (some (compose parentT m)) children ++ visits parentT siblings)

/-- The assembly record with the members `component` (the id) and `transform` (the sixteen
entries of the matrix in row-major order). -/
def assemblyRecord (id : Int) (t : aiMatrix4x4 R) : Json R :=
  object [("component", number_integer id), ("transform", array (t.toList.map number_float))]

/-- Overwrites the transform of the node at an address, leaving every other field alone. -/
def setTransformation (nodes : List (aiNode R)) (addr : Nat) (t : aiMatrix4x4 R) :
    List (aiNode R) :=
  match nodes[addr]? with
  | some node => nodes.set addr { node with mTransformation := t }
  | none => nodes

/-- Overwrites the transforms of the listed nodes, in list order. -/
def storeAll (nodes : List (aiNode R)) (l : List (Nat × aiMatrix4x4 R)) : List (aiNode R) :=
  l.foldl (fun ns p => setTransformation ns p.1 p.2) nodes

/-- The value of `assembly` after `recs` have been pushed onto `a`, one `push_back` each. -/
def appendTo (a : Json R) (recs : List (Json R)) : Json R :=
  match recs with
  | [] => a
  | _ :: _ => array (a.elements ++ recs)

/-- A value `push_back` accepts: `null` or an array. -/
def IsList (a : Json R) : Prop := a = null ∨ ∃ es, a = array es

/-- The manifest with the given `assembly` and `components` members. -/
def manifest (a c : Json R) : Json R := object [("assembly", a), ("components", c)]

/-- The assembly records of the mesh instances of a forest, in depth-first pre-order, where
`ids` gives the id recorded for each mesh index. -/
def records [Add R] [Mul R] (ids : Nat → Int) (parentT : Option (aiMatrix4x4 R))
    (f : NodeForest R) : List (Json R) :=
  (instances parentT f).map fun p => assemblyRecord (ids p.1) p.2

/-- The top-level nodes of `f` have no parent and `parentT` is `none`, or their parent lies
outside `f` and `parentT` is the transform the store holds for it. -/
def ParentOK (nodes : List (aiNode R)) (parent : Option Nat)
    (parentT : Option (aiMatrix4x4 R)) (f : NodeForest R) : Prop :=
  match parent with
  | none => parentT = none
  | some q => q ∉ f.addrs ∧ ∃ n, nodes[q]? = some n ∧ parentT = some n.mTransformation

end Results

/-! ## The entry point -/

/-- The call `s.find_last_of(c)` for a single character: the position of its last occurrence,
`none` for `npos`. -/
def find_last_of (s : List Char) (c : Char) : Option Nat :=
  match s with
  | [] => none
  | x :: rest =>
    match find_last_of rest c with
    | some i => some (i + 1)
    | none => if x = c then some 0 else none

/-- Lines 108-109: `in_file.substr(0, in_file.find_last_of("."))`; with `npos` the substring is
the whole string. -/
def in_file_noext (in_file : String) : String :=
  match find_last_of in_file.data '.' with
  | some lastindex => String.mk (in_file.data.take lastindex)
  | none => in_file

/-- Line 153: `in_file_noext + "_part_" + std::to_string(i) + ".ply"`. -/
def o_filename (in_file : String) (i : Nat) : String :=
  in_file_noext in_file ++ "_part_" ++ toString i ++ ".ply"

/-- Following the wording of the spec, not the code: the path with the extension of its file
name stripped, where the file name is what follows the last `/` and its extension starts at its
last full stop; a path whose file name has no full stop is unchanged. -/
def specStripExtension (path : String) : String :=
  let dirLen := match find_last_of path.data '/' with
    | some i => i + 1
    | none => 0
  match find_last_of (path.data.drop dirLen) '.' with
  | some i => String.mk (path.data.take (dirLen + i))
  | none => path

/-- Following the wording of the spec, not the code: the component file name built on
`specStripExtension`. -/
def specFileName (path : String) (i : Nat) : String :=
  specStripExtension path ++ "_part_" ++ toString i ++ ".ply"

/-- The fields of `aiScene` the program touches.  Meshes and materials are opaque handles;
`mNumMeshes` is the length of `mMeshes`.  `nodes` is the memory holding the nodes of the scene
and `mRootNode` an address into it. -/
structure aiScene (R : Type) where
  mMeshes : List Nat
  mMaterials : List Nat
  mRootNode : Option Nat
  nodes : List (aiNode R)

/-- One call of `Exporter::Export` (line 154): the single-mesh scene handed over (its mesh, the
shared materials, the name of its root node), the format id, the path and the post-processing
flags. -/
structure ExportCall where
  mesh : Nat
  materials : List Nat
  rootName : String
  pFormatId : String
  pPath : String
  pPreprocessing : Nat
deriving DecidableEq

/-- The two external collaborators: the importer (`none` is a null scene) and the exporter
(`true` is `AI_SUCCESS`).  The importer always runs with the same fixed settings, so it is a
function of the path alone. -/
structure Collaborators (R : Type) where
  ReadFile : String → Option (aiScene R)
  Export : ExportCall → Bool

/-- What a run of `main` amounts to: either undefined behaviour or an uncaught exception, or a
return with an exit status, the lines printed, the export calls made with their results, and the
manifest written (path and value), if any. -/
inductive Outcome (R : Type) where
  | undefined
  | returned (status : Int) (stdout : List String) (exports : List (ExportCall × Bool))
      (written : Option (String × Json R))

namespace Outcome

variable {R : Type}

/-- The exit status of a run that returns. -/
def status? : Outcome R → Option Int
  | undefined => none
  | returned status _ _ _ => some status

/-- The manifest value written by a run that returns and writes one. -/
def manifest? : Outcome R → Option (Json R)
  | undefined => none
  | returned _ _ _ written => written.map Prod.snd

/-- The results of the export calls of a run that returns. -/
def exportResults : Outcome R → List Bool
  | undefined => []
  | returned _ _ exports _ => exports.map Prod.snd

end Outcome

section EntryPoint

variable {R : Type}

open Json

/-- Lines 87-90, the initial value of the global `scenario_json`.  Inside a braced initialiser
list a nested empty pair of braces value-initialises a JSON value, which is `null`; the two
members become arrays only when the first record is pushed. -/
def scenario_json_init : Json R :=
  object [("assembly", null), ("components", null)]

/-- The component record of lines 157-160 with the members `file` and `id`. -/
def componentRecord (file : String) (i : Nat) : Json R :=
  object [("file", string file), ("id", number_integer i)]

/-- The arguments of the export call of line 154 for mesh `i`: the single-mesh scene of lines
138-149 (mesh `i`, the materials of the original scene, a root node named after the original
root), the format `"ply"`, the component file name, and the flags `!aiProcess_PreTransformVertices`,
which is `0`. -/
def exportCall (scene_o : aiScene R) (root : aiNode R) (in_file : String) (i mesh : Nat) :
    ExportCall :=
  ⟨mesh, scene_o.mMaterials, root.mName, "ply", o_filename in_file i, 0⟩

/-- Lines 137-161, the body of the extraction loop for mesh `i`: build the single-mesh scene
(reading the mesh and the name of the root node), export it without looking at the result, and
push the component record. -/
def extractMesh (env : Collaborators R) (scene_o : aiScene R) (in_file : String)
    (st : Json R × List (ExportCall × Bool)) (i : Nat) :
    Option (Json R × List (ExportCall × Bool)) :=
  (scene_o.mMeshes[i]?).bind fun mesh =>
    (scene_o.mRootNode.bind fun r => scene_o.nodes[r]?).bind fun (root : aiNode R) =>
      let call := exportCall scene_o root in_file i mesh
      let res := env.Export call
      (st.1.updateKey "components" fun c =>
          c.push_back (componentRecord (o_filename in_file i) i)).map fun sj =>
        (sj, st.2 ++ [(call, res)])

/-- Lines 136-162: the extraction loop over all meshes of the scene. -/
def extract (env : Collaborators R) (scene_o : aiScene R) (in_file : String) :
    Option (Json R × List (ExportCall × Bool)) :=
  (List.range scene_o.mMeshes.length).foldlM (extractMesh env scene_o in_file)
    (scenario_json_init, [])

/-- The component records of a scene with `n` meshes, in mesh order. -/
def componentRecords (in_file : String) (n : Nat) : List (Json R) :=
  (List.range n).map fun i => componentRecord (o_filename in_file i) i

/-- The export calls of a scene in mesh order, each with the result the exporter gives. -/
def exportLog (env : Collaborators R) (scene_o : aiScene R) (root : aiNode R)
    (in_file : String) (l : List Nat) : List (ExportCall × Bool) :=
  l.map fun i =>
    (exportCall scene_o root in_file i (scene_o.mMeshes.getD i 0),
      env.Export (exportCall scene_o root in_file i (scene_o.mMeshes.getD i 0)))

/-- The value of a string of decimal digits. -/
def decimalValue (cs : List Char) : Nat :=
  cs.foldl (fun acc c => acc * 10 + (c.toNat - 48)) 0

/-- Lines 96-170.  `argv` holds the `argc` arguments (program name first); `argv[argc]` is the
null pointer, and building a `std::string` from it is undefined.  The recursion budget handed to
`AddToJson` exceeds the number of nodes in memory, so it only runs out when the child pointers
form a cycle, where the program recurses without end. -/
def main [Zero R] [Add R] [Mul R] (env : Collaborators R) (argv : List String) : Outcome R :=
  if argv.length < 2 then Outcome.returned 0 ["Invalid command\n"] [] none
  else
    match argv[1]?, argv[2]? with
    | some in_file, some out_json =>
      match env.ReadFile in_file with
      | none => Outcome.undefined
      | some scene_o =>
        match extract env scene_o in_file with
        | none => Outcome.undefined
        | some (sj, exports) =>
          match scene_o.mRootNode with
          | none => Outcome.undefined
          | some root =>
            match AddToJson (scene_o.nodes.length + 1) root ⟨scene_o.nodes, sj⟩ with
            | none => Outcome.undefined
            | some w =>
              Outcome.returned 1
                ["Total components: " ++ toString scene_o.mMeshes.length ++ "\n"]
                exports (some (out_json, w.scenario_json))
    | _, _ => Outcome.undefined

end EntryPoint

/-! ## Sample data -/

section Samples

open NodeForest

/-- The translation by `(x, y, z)`. -/
def translation (x y z : ℤ) : aiMatrix4x4 ℤ :=
  ⟨1, 0, 0, x,
   0, 1, 0, y,
   0, 0, 1, z,
   0, 0, 0, 1⟩

/-- The matrix whose entry number `i` (row-major, from `0`) is `i * 1.5`. -/
def sampleMatrix : aiMatrix4x4 ℚ :=
  ⟨0, 3 / 2, 3, 9 / 2,
   6, 15 / 2, 9, 21 / 2,
   12, 27 / 2, 15, 33 / 2,
   18, 39 / 2, 21, 45 / 2⟩

/-- The chain `root → A → B`: the root has the identity transform, `A` a translation and one
mesh slot, `B` another translation and two mesh slots. -/
def sampleTree : NodeForest ℤ :=
  tree 0 "root" 1 []
    (cons 1 "A" (translation 1 2 3) [0]
      (cons 2 "B" (translation 10 20 30) [1, 0] nil nil) nil)

/-- The nodes of `sampleTree` in memory. -/
def sampleNodes : List (aiNode ℤ) :=
  [⟨"root", 1, none, [1], []⟩,
   ⟨"A", translation 1 2 3, some 0, [2], [0]⟩,
   ⟨"B", translation 10 20 30, some 1, [], [1, 0]⟩]

/-- A scene with two meshes and the nodes of `sampleTree`. -/
def sampleScene : aiScene ℤ := ⟨[100, 101], [7], some 0, sampleNodes⟩

/-- A scene without meshes whose only node is the root. -/
def emptyScene : aiScene ℤ := ⟨[], [], some 0, [⟨"root", 1, none, [], []⟩]⟩

/-- A node with the transform `sampleMatrix` and one mesh slot, the child of a root. -/
def sampleChildTree : NodeForest ℚ := tree 1 "part" sampleMatrix [0] nil

/-- The nodes of `sampleChildTree` and its parent, a root with the identity transform, in
memory. -/
def sampleChildNodes : List (aiNode ℚ) :=
  [⟨"root", 1, none, [1], []⟩, ⟨"part", sampleMatrix, some 0, [], [0]⟩]

/-- The component records of a scene with two meshes imported from `a.obj`. -/
def sampleComponents (R : Type) : Json R :=
  Json.array (componentRecords "a.obj" 2)

end Samples

end AssimpCmd

/-! ## Matrix algebra -/

namespace AssimpCmd

namespace aiMatrix4x4

variable {R : Type}

theorem mul_def [Add R] [Mul R] (m n : aiMatrix4x4 R) : m * n = mul m n := rfl

theorem one_def [Zero R] [One R] : (1 : aiMatrix4x4 R) = identity := rfl

theorem matMul_assoc [CommRing R] (a b c : aiMatrix4x4 R) : a * b * c = a * (b * c) :=
  mul_assoc a b c

theorem matOne_mul [CommRing R] (a : aiMatrix4x4 R) : 1 * a = a := one_mul a

theorem matMul_one [CommRing R] (a : aiMatrix4x4 R) : a * 1 = a := mul_one a

theorem toMatrix_apply [Zero R] (m : aiMatrix4x4 R) (j k : Fin 4) :
    m.toMatrix j k = m.get j.val k.val := rfl

/-- The product `mul` is the matrix product of Mathlib. -/
theorem toMatrix_mul [CommRing R] (m n : aiMatrix4x4 R) :
    (m * n).toMatrix = m.toMatrix * n.toMatrix := by
  funext j k
  rw [Matrix.mul_apply, Fin.sum_univ_four]
  simp only [toMatrix_apply, mul_def, mul]
  fin_cases j <;> fin_cases k <;> rfl

/-- The identity is the identity matrix of Mathlib. -/
theorem toMatrix_one [CommRing R] : (1 : aiMatrix4x4 R).toMatrix = 1 := by
  funext j k
  rw [toMatrix_apply, one_def, Matrix.one_apply]
  fin_cases j <;> fin_cases k <;> simp [get, row, identity]

/-- Entry `j*4+k` of the row-major list is `m[j][k]`. -/
theorem toList_getElem? [Zero R] (m : aiMatrix4x4 R) (j k : Nat) (hj : j < 4) (hk : k < 4) :
    m.toList[j * 4 + k]? = some (m.get j k) := by
  interval_cases j <;> interval_cases k <;> rfl

theorem toList_length (m : aiMatrix4x4 R) : m.toList.length = 16 := rfl

end aiMatrix4x4

end AssimpCmd

/-! ## The JSON operations on the manifest -/

namespace AssimpCmd

section JsonLemmas

variable {R : Type}

open Json

theorem keyLess_transform_component : keyLess "transform" "component" = false := by decide

theorem range_four : List.range 4 = [0, 1, 2, 3] := by decide

theorem updateKey_transform_new (c v : Json R) :
    updateKey (object [("component", c)]) "transform" (fun _ => some v)
      = some (object [("component", c), ("transform", v)]) := by
  simp [updateKey, findMember, insertMember, keyLess_transform_component]

theorem updateKey_transform_old (c t : Json R) (f : Json R → Option (Json R)) :
    updateKey (object [("component", c), ("transform", t)]) "transform" f
      = (f t).map fun v => object [("component", c), ("transform", v)] := by
  simp [updateKey, findMember, insertMember, keyLess_transform_component]

theorem updateIdx_array_set (es : List (Json R)) (i : Nat) (v : Json R) (h : i < es.length) :
    updateIdx (array es) i (fun _ => some v) = some (array (es.set i v)) := by
  simp [updateIdx, h]

theorem updateKey_transform_set (c v : Json R) (es : List (Json R)) (i : Nat)
    (h : i < es.length) :
    updateKey (object [("component", c), ("transform", array es)]) "transform"
        (fun t => t.updateIdx i fun _ => some v)
      = some (object [("component", c), ("transform", array (es.set i v))]) := by
  rw [updateKey_transform_old, updateIdx_array_set _ _ _ h]; rfl

/-- Lines 189-197 build exactly the assembly record. -/
theorem writeTransform_eq [Zero R] (id : Int) (m : aiMatrix4x4 R) :
    writeTransform (object [("component", number_integer id)]) m
      = some (assemblyRecord id m) := by
  unfold writeTransform
  rw [updateKey_transform_new]
  simp only [range_four, List.foldlM_cons, List.foldlM_nil, Option.some_bind,
    Option.bind_eq_bind, Option.pure_def]
  simp only [updateKey_transform_set, List.length_set, List.length_replicate, Nat.reduceMul,
    Nat.reduceAdd, Nat.reduceLT, Option.some_bind, Option.bind_eq_bind]
  rfl

theorem updateKey_assembly (a c : Json R) (f : Json R → Option (Json R)) :
    updateKey (manifest a c) "assembly" f = (f a).map fun v => manifest v c := by
  simp [manifest, updateKey, findMember, insertMember]

theorem updateKey_components (a c : Json R) (f : Json R → Option (Json R)) :
    updateKey (manifest a c) "components" f = (f c).map fun v => manifest a v := by
  have h : keyLess "components" "assembly" = false := by decide
  simp [manifest, updateKey, findMember, insertMember, h]

theorem readMeshId_manifest (a b c : Json R) (idx : Nat) :
    readMeshId (manifest a c) idx = readMeshId (manifest b c) idx := by
  simp [manifest, readMeshId, findMember]

theorem appendTo_nil (a : Json R) : appendTo a [] = a := rfl

theorem isList_appendTo (a : Json R) (recs : List (Json R)) (h : IsList a) :
    IsList (appendTo a recs) := by
  cases recs with
  | nil => exact h
  | cons r rs => exact Or.inr ⟨_, rfl⟩

theorem push_back_eq (a v : Json R) (h : IsList a) :
    a.push_back v = some (appendTo a [v]) := by
  rcases h with rfl | ⟨es, rfl⟩ <;> rfl

theorem elements_appendTo (a : Json R) (recs : List (Json R)) :
    (appendTo a recs).elements = a.elements ++ recs := by
  cases recs with
  | nil => simp [appendTo]
  | cons r rs => rfl

theorem appendTo_appendTo (a : Json R) (xs ys : List (Json R)) :
    appendTo (appendTo a xs) ys = appendTo a (xs ++ ys) := by
  cases ys with
  | nil => simp [appendTo_nil]
  | cons y ys =>
    cases xs with
    | nil => rfl
    | cons x xs => simp [appendTo, elements]

/-- One pass of the loop body of lines 183-198. -/
theorem emitMesh_eq [Zero R] (m : aiMatrix4x4 R) (a c : Json R) (idx : Nat) (id : Int)
    (ha : IsList a) (hid : readMeshId (manifest a c) idx = some id) :
    emitMesh m (manifest a c) idx = some (manifest (appendTo a [assemblyRecord id m]) c) := by
  unfold emitMesh
  rw [hid, Option.some_bind, writeTransform_eq, Option.some_bind, updateKey_assembly,
    push_back_eq _ _ ha]
  rfl

/-- The loop of lines 180-200 pushes one record per mesh slot, in slot order, all with the
transform `m`. -/
theorem emitMeshes_eq [Zero R] (m : aiMatrix4x4 R) (ids : Nat → Int) (c : Json R) :
    ∀ (meshes : List Nat) (a : Json R), IsList a →
      (∀ idx ∈ meshes, readMeshId (manifest a c) idx = some (ids idx)) →
      emitMeshes meshes m (manifest a c)
        = some (manifest (appendTo a (meshes.map fun idx => assemblyRecord (ids idx) m)) c) := by
  have key : ∀ (meshes : List Nat) (a : Json R), IsList a →
      (∀ idx ∈ meshes, readMeshId (manifest a c) idx = some (ids idx)) →
      meshes.foldlM (emitMesh m) (manifest a c)
        = some (manifest (appendTo a (meshes.map fun idx => assemblyRecord (ids idx) m)) c) := by
    intro meshes
    induction meshes with
    | nil => intro a _ _; rfl
    | cons idx rest ih =>
      intro a ha hid
      rw [List.foldlM_cons, emitMesh_eq m a c idx (ids idx) ha (hid idx (List.mem_cons_self _ _))]
      simp only [Option.bind_eq_bind, Option.some_bind]
      rw [ih _ (isList_appendTo _ _ ha), appendTo_appendTo]
      · rfl
      · intro j hj
        rw [readMeshId_manifest _ a]
        exact hid j (List.mem_cons_of_mem _ hj)
  intro meshes a ha hid
  unfold emitMeshes
  split
  · exact key meshes a ha hid
  · have : meshes = [] := by
      cases meshes with
      | nil => rfl
      | cons x xs => simp at *
    subst this
    rfl

end JsonLemmas

end AssimpCmd

/-! ## The node store -/

namespace AssimpCmd

section StoreLemmas

variable {R : Type}

open Json NodeForest

theorem setTransformation_getElem?_ne (nodes : List (aiNode R)) (addr b : Nat)
    (t : aiMatrix4x4 R) (h : addr ≠ b) :
    (setTransformation nodes addr t)[b]? = nodes[b]? := by
  unfold setTransformation
  split
  · rw [List.getElem?_set_ne h]
  · rfl

theorem setTransformation_getElem?_self (nodes : List (aiNode R)) (addr : Nat)
    (t : aiMatrix4x4 R) (node : aiNode R) (h : nodes[addr]? = some node) :
    (setTransformation nodes addr t)[addr]? = some { node with mTransformation := t } := by
  unfold setTransformation
  rw [h]
  have hlt : addr < nodes.length := by
    by_contra hge
    rw [List.getElem?_eq_none (Nat.le_of_not_lt hge)] at h
    exact Option.noConfusion h
  simp [List.getElem?_set_self hlt]

theorem setTransformation_length (nodes : List (aiNode R)) (addr : Nat) (t : aiMatrix4x4 R) :
    (setTransformation nodes addr t).length = nodes.length := by
  unfold setTransformation
  split <;> simp

theorem storeAll_nil (nodes : List (aiNode R)) : storeAll nodes [] = nodes := rfl

theorem storeAll_cons (nodes : List (aiNode R)) (p : Nat × aiMatrix4x4 R)
    (l : List (Nat × aiMatrix4x4 R)) :
    storeAll nodes (p :: l) = storeAll (setTransformation nodes p.1 p.2) l := rfl

theorem storeAll_append (nodes : List (aiNode R)) (l1 l2 : List (Nat × aiMatrix4x4 R)) :
    storeAll nodes (l1 ++ l2) = storeAll (storeAll nodes l1) l2 := by
  simp [storeAll, List.foldl_append]

theorem storeAll_length (l : List (Nat × aiMatrix4x4 R)) :
    ∀ nodes : List (aiNode R), (storeAll nodes l).length = nodes.length := by
  induction l with
  | nil => intro nodes; rfl
  | cons p l ih => intro nodes; rw [storeAll_cons, ih, setTransformation_length]

/-- Addresses that are not listed keep their node. -/
theorem storeAll_getElem?_of_not_mem (l : List (Nat × aiMatrix4x4 R)) (b : Nat) :
    ∀ nodes : List (aiNode R), b ∉ l.map Prod.fst → (storeAll nodes l)[b]? = nodes[b]? := by
  induction l with
  | nil => intro nodes _; rfl
  | cons p l ih =>
    intro nodes hb
    simp only [List.map_cons, List.mem_cons, not_or] at hb
    rw [storeAll_cons, ih _ hb.2, setTransformation_getElem?_ne _ _ _ _ (Ne.symm hb.1)]

/-- A listed address ends up with the listed transform and its other fields unchanged. -/
theorem storeAll_getElem?_of_mem (l : List (Nat × aiMatrix4x4 R)) (b : Nat)
    (t : aiMatrix4x4 R) :
    ∀ (nodes : List (aiNode R)) (node : aiNode R), (l.map Prod.fst).Nodup → (b, t) ∈ l →
      nodes[b]? = some node →
      (storeAll nodes l)[b]? = some { node with mTransformation := t } := by
  induction l with
  | nil => intro nodes node _ hmem; simp at hmem
  | cons p l ih =>
    intro nodes node hnd hmem hnode
    simp only [List.map_cons, List.nodup_cons] at hnd
    rw [storeAll_cons]
    rcases List.mem_cons.mp hmem with hp | hl
    · subst hp
      rw [storeAll_getElem?_of_not_mem _ _ _ hnd.1]
      exact setTransformation_getElem?_self _ _ _ _ hnode
    · have hne : p.1 ≠ b := by
        intro hEq
        apply hnd.1
        rw [hEq]
        exact List.mem_map.mpr ⟨(b, t), hl, rfl⟩
      apply ih _ _ hnd.2 hl
      rw [setTransformation_getElem?_ne _ _ _ _ hne]
      exact hnode

theorem flattened_addrs [Add R] [Mul R] (f : NodeForest R) :
    ∀ parentT : Option (aiMatrix4x4 R), (flattened parentT f).map Prod.fst = f.addrs := by
  induction f with
  | nil => intro _; rfl
  | cons addr name m meshes children siblings ihc ihs =>
    intro parentT
    simp [flattened, addrs, ihc, ihs]

/-- A store that agrees with another on the addresses of a forest holds the forest as well. -/
theorem stored_congr (f : NodeForest R) :
    ∀ (nodes nodes2 : List (aiNode R)) (parent : Option Nat),
      (∀ b ∈ f.addrs, nodes2[b]? = nodes[b]?) → Stored nodes parent f →
      Stored nodes2 parent f := by
  induction f with
  | nil => intro _ _ _ _ _; trivial
  | cons addr name m meshes children siblings ihc ihs =>
    intro nodes nodes2 parent hag hst
    obtain ⟨h1, h2, h3⟩ := hst
    refine ⟨?_, ihc _ _ _ ?_ h2, ihs _ _ _ ?_ h3⟩
    · rw [hag addr (by simp [addrs])]; exact h1
    · intro b hb; exact hag b (by simp [addrs, hb])
    · intro b hb; exact hag b (by simp [addrs, hb])

theorem stored_lt_length (f : NodeForest R) :
    ∀ (nodes : List (aiNode R)) (parent : Option Nat), Stored nodes parent f →
      ∀ b ∈ f.addrs, b < nodes.length := by
  induction f with
  | nil => intro _ _ _ b hb; simp [addrs] at hb
  | cons addr name m meshes children siblings ihc ihs =>
    intro nodes parent hst b hb
    obtain ⟨h1, h2, h3⟩ := hst
    simp only [addrs, List.mem_cons, List.mem_append] at hb
    rcases hb with rfl | hb | hb
    · by_contra hge
      rw [List.getElem?_eq_none (Nat.le_of_not_lt hge)] at h1
      exact Option.noConfusion h1
    · exact ihc _ _ h2 b hb
    · exact ihs _ _ h3 b hb

theorem depth_le_length_addrs (f : NodeForest R) : f.depth ≤ f.addrs.length := by
  induction f with
  | nil => simp [depth]
  | cons addr name m meshes children siblings ihc ihs =>
    simp only [depth, addrs, List.length_cons, List.length_append]
    omega

/-- A forest held in a store without repeated addresses is no deeper than the store is long. -/
theorem depth_le_length (f : NodeForest R) (nodes : List (aiNode R)) (parent : Option Nat)
    (hst : Stored nodes parent f) (hnd : f.addrs.Nodup) : f.depth ≤ nodes.length := by
  have hsub : f.addrs ⊆ List.range nodes.length := by
    intro b hb
    exact List.mem_range.mpr (stored_lt_length f nodes parent hst b hb)
  have h := (List.subperm_of_subset hnd hsub).length_le
  rw [List.length_range] at h
  exact le_trans (depth_le_length_addrs f) h

end StoreLemmas

end AssimpCmd

/-! ## The traversal -/

namespace AssimpCmd

section Traversal

variable {R : Type}

open Json NodeForest

theorem AddToJson_succ [Zero R] [Add R] [Mul R] (fuel addr : Nat) (w : World R)
    (node : aiNode R) (t : aiMatrix4x4 R) (sj : Json R) (h1 : w.nodes[addr]? = some node)
    (h2 : composeWithParent w.nodes node = some t)
    (h3 : emitMeshes node.mMeshes t w.scenario_json = some sj) :
    AddToJson (fuel + 1) addr w
      = node.mChildren.foldlM (fun w1 child => AddToJson fuel child w1)
          ⟨w.nodes.set addr { node with mTransformation := t }, sj⟩ := by
  simp only [AddToJson, h1, h2, h3, Option.some_bind]

theorem composeWithParent_eq [Add R] [Mul R] (nodes : List (aiNode R)) (parent : Option Nat)
    (parentT : Option (aiMatrix4x4 R)) (f : NodeForest R) (node : aiNode R)
    (hp : ParentOK nodes parent parentT f) (hn : node.mParent = parent) :
    composeWithParent nodes node = some (compose parentT node.mTransformation) := by
  unfold composeWithParent
  rw [hn]
  cases parent with
  | none =>
    have : parentT = none := hp
    subst this
    rfl
  | some q =>
    obtain ⟨_, n, hq, rfl⟩ := hp
    simp [hq, compose]

theorem records_cons [Add R] [Mul R] (ids : Nat → Int) (parentT : Option (aiMatrix4x4 R))
    (addr : Nat) (name : String) (m : aiMatrix4x4 R) (meshes : List Nat)
    (children siblings : NodeForest R) :
    records ids parentT (cons addr name m meshes children siblings)
      = (meshes.map fun idx => assemblyRecord (ids idx) (compose parentT m))
        ++ (records ids (some (compose parentT m)) children ++ records ids parentT siblings) := by
  simp [records, instances, List.map_append, List.map_map, Function.comp_def]

/-- The traversal of a forest held in the store: every top-level node is visited in order, and
the run ends with every node holding its absolute transform and with one record per mesh
instance appended in depth-first pre-order. -/
theorem visit_forest [Zero R] [Add R] [Mul R] (ids : Nat → Int) (c : Json R)
    (f : NodeForest R) :
    ∀ (fuel : Nat) (parent : Option Nat) (parentT : Option (aiMatrix4x4 R))
      (nodes : List (aiNode R)) (a : Json R),
      Stored nodes parent f → f.addrs.Nodup → ParentOK nodes parent parentT f → IsList a →
      (∀ idx ∈ f.meshSlots, readMeshId (manifest a c) idx = some (ids idx)) →
      f.depth ≤ fuel →
      f.roots.foldlM (fun w child => AddToJson fuel child w) ⟨nodes, manifest a c⟩
        = some ⟨storeAll nodes (flattened parentT f),
            manifest (appendTo a (records ids parentT f)) c⟩ := by
  induction f with
  | nil => intro _ _ _ _ _ _ _ _ _ _ _; rfl
  | cons addr name m meshes children siblings ihc ihs =>
    intro fuel parent parentT nodes a hst hnd hpar ha hid hfuel
    obtain ⟨hnode, hstc, hsts⟩ := hst
    simp only [addrs, List.nodup_cons, List.mem_append, not_or, List.nodup_append] at hnd
    obtain ⟨⟨hac, has⟩, hndc, hnds, hdisj⟩ := hnd
    simp only [depth] at hfuel
    obtain ⟨k, rfl⟩ : ∃ k, fuel = k + 1 := ⟨fuel - 1, by omega⟩
    have hk : children.depth ≤ k := by omega
    have hks : siblings.depth ≤ k + 1 := by omega
    simp only [meshSlots, List.mem_append] at hid
    -- the visit of the node itself
    have hT := composeWithParent_eq nodes parent parentT _ ⟨name, m, parent, roots children, meshes⟩
      hpar rfl
    have hemit := emitMeshes_eq (compose parentT m) ids c meshes a ha
      (fun idx h => hid idx (Or.inl h))
    have hset : nodes.set addr { (⟨name, m, parent, roots children, meshes⟩ : aiNode R) with
        mTransformation := compose parentT m }
          = setTransformation nodes addr (compose parentT m) := by
      simp [setTransformation, hnode]
    have hvisit := AddToJson_succ k addr ⟨nodes, manifest a c⟩ _ _ _ hnode hT hemit
    rw [hset] at hvisit
    -- the children
    have hchildren := ihc k (some addr) (some (compose parentT m))
      (setTransformation nodes addr (compose parentT m))
      (appendTo a (meshes.map fun idx => assemblyRecord (ids idx) (compose parentT m)))
      (stored_congr children nodes _ _
        (fun b hb => setTransformation_getElem?_ne _ _ _ _ (fun h => hac (h ▸ hb))) hstc)
      hndc
      ⟨hac, _, setTransformation_getElem?_self _ _ _ _ hnode, rfl⟩
      (isList_appendTo _ _ ha)
      (fun idx h => by rw [readMeshId_manifest _ a]; exact hid idx (Or.inr (Or.inl h)))
      hk
    rw [hchildren] at hvisit
    -- the later siblings
    have hagree : ∀ b, b ≠ addr → b ∉ children.addrs →
        (storeAll (setTransformation nodes addr (compose parentT m))
          (flattened (some (compose parentT m)) children))[b]? = nodes[b]? := by
      intro b hb1 hb2
      rw [storeAll_getElem?_of_not_mem _ _ _ (by rw [flattened_addrs]; exact hb2),
        setTransformation_getElem?_ne _ _ _ _ (Ne.symm hb1)]
    have hparS : ParentOK (storeAll (setTransformation nodes addr (compose parentT m))
        (flattened (some (compose parentT m)) children)) parent parentT siblings := by
      cases parent with
      | none => exact hpar
      | some q =>
        obtain ⟨hq, n, hqn, hqT⟩ := hpar
        simp only [addrs, List.mem_cons, List.mem_append, not_or] at hq
        exact ⟨hq.2.2, n, by rw [hagree q hq.1 hq.2.1]; exact hqn, hqT⟩
    have hsiblings := ihs (k + 1) parent parentT
      (storeAll (setTransformation nodes addr (compose parentT m))
        (flattened (some (compose parentT m)) children))
      (appendTo (appendTo a (meshes.map fun idx => assemblyRecord (ids idx) (compose parentT m)))
        (records ids (some (compose parentT m)) children))
      (stored_congr siblings nodes _ _
        (fun b hb => hagree b (fun h => has (h ▸ hb)) (fun h => hdisj h hb)) hsts)
      hnds hparS
      (isList_appendTo _ _ (isList_appendTo _ _ ha))
      (fun idx h => by rw [readMeshId_manifest _ a]; exact hid idx (Or.inr (Or.inr h)))
      hks
    simp only [roots, List.foldlM_cons, hvisit, Option.bind_eq_bind, Option.some_bind]
    rw [hsiblings, records_cons]
    simp only [flattened, storeAll_cons, storeAll_append, appendTo_appendTo, List.append_assoc]

end Traversal

end AssimpCmd

/-! ## Absolute transforms and the listing of mesh instances -/

namespace AssimpCmd

section Listing

variable {R : Type}

open Json NodeForest

theorem compose_compose [CommRing R] (parentT : Option (aiMatrix4x4 R))
    (m x : aiMatrix4x4 R) : compose (some (compose parentT m)) x = compose parentT (m * x) := by
  cases parentT with
  | none => rfl
  | some p => exact aiMatrix4x4.matMul_assoc p m x

theorem compose_none [Add R] [Mul R] (m : aiMatrix4x4 R) : compose none m = m := rfl

/-- The absolute transform of a node is the ordered product of the local transforms on its
path, multiplied from the left by the transform of the parent of the forest, if any. -/
theorem flattened_eq_paths [CommRing R] (f : NodeForest R) :
    ∀ parentT : Option (aiMatrix4x4 R),
      flattened parentT f = (paths f).map fun p => (p.1, compose parentT p.2.prod) := by
  induction f with
  | nil => intro _; rfl
  | cons addr name m meshes children siblings ihc ihs =>
    intro parentT
    simp only [flattened, paths, List.map_cons, List.map_append, List.map_map, ihc, ihs,
      List.prod_singleton, Function.comp_def, List.prod_cons, compose_compose, List.prod_nil,
      aiMatrix4x4.matMul_one]

theorem flattened_eq_visits [Add R] [Mul R] (f : NodeForest R) :
    ∀ parentT : Option (aiMatrix4x4 R),
      flattened parentT f = (visits parentT f).map fun v => (v.addr, v.absT) := by
  induction f with
  | nil => intro _; rfl
  | cons addr name m meshes children siblings ihc ihs =>
    intro parentT
    simp only [flattened, visits, List.map_cons, List.map_append, ihc, ihs]

theorem instances_eq_visits [Add R] [Mul R] (f : NodeForest R) :
    ∀ parentT : Option (aiMatrix4x4 R),
      instances parentT f
        = ((visits parentT f).map fun v => v.meshes.map fun idx => (idx, v.absT)).flatten := by
  induction f with
  | nil => intro _; rfl
  | cons addr name m meshes children siblings ihc ihs =>
    intro parentT
    simp only [instances, visits, List.map_cons, List.map_append, List.flatten_cons,
      List.flatten_append, ihc, ihs]

theorem records_eq_visits [Add R] [Mul R] (ids : Nat → Int) (f : NodeForest R)
    (parentT : Option (aiMatrix4x4 R)) :
    records ids parentT f
      = ((visits parentT f).map fun v =>
          v.meshes.map fun idx => assemblyRecord (ids idx) v.absT).flatten := by
  rw [records, instances_eq_visits, List.map_flatten, List.map_map]
  congr 1
  apply List.map_congr_left
  intro v _
  simp [List.map_map, Function.comp_def]

theorem slotCounts_eq_visits [Add R] [Mul R] (f : NodeForest R) :
    ∀ parentT : Option (aiMatrix4x4 R),
      f.slotCounts = (visits parentT f).map fun v => v.meshes.length := by
  induction f with
  | nil => intro _; rfl
  | cons addr name m meshes children siblings ihc ihs =>
    intro parentT
    simp only [slotCounts, visits, List.map_cons, List.map_append,
      ← ihc (some (compose parentT m)), ← ihs parentT]

theorem length_instances [Add R] [Mul R] (f : NodeForest R) :
    ∀ parentT : Option (aiMatrix4x4 R), (instances parentT f).length = f.slotCounts.sum := by
  induction f with
  | nil => intro _; rfl
  | cons addr name m meshes children siblings ihc ihs =>
    intro parentT
    simp [instances, slotCounts, ihc, ihs]

theorem instances_fst [Add R] [Mul R] (f : NodeForest R) :
    ∀ parentT : Option (aiMatrix4x4 R), (instances parentT f).map Prod.fst = f.meshSlots := by
  induction f with
  | nil => intro _; rfl
  | cons addr name m meshes children siblings ihc ihs =>
    intro parentT
    simp [instances, meshSlots, ihc, ihs, Function.comp_def]

/-- Every record listed for a forest carries the transform of the parent of the forest as a
left factor. -/
theorem instances_left_factor [CommRing R] (f : NodeForest R) :
    ∀ (t : aiMatrix4x4 R), ∀ r ∈ instances (some t) f, ∃ x, r.2 = t * x := by
  induction f with
  | nil => intro _ r hr; simp [instances] at hr
  | cons addr name m meshes children siblings ihc ihs =>
    intro t r hr
    simp only [instances, List.mem_append, List.mem_map] at hr
    rcases hr with ⟨idx, _, rfl⟩ | hr | hr
    · exact ⟨m, rfl⟩
    · obtain ⟨x, hx⟩ := ihc _ r hr
      exact ⟨m * x, by rw [hx]; exact aiMatrix4x4.matMul_assoc t m x⟩
    · exact ihs t r hr

/-- The listing of the descendants of a visited node is a contiguous part of the listing of the
whole forest. -/
theorem instances_contiguous [Add R] [Mul R] (f : NodeForest R) :
    ∀ (parentT : Option (aiMatrix4x4 R)), ∀ v ∈ visits parentT f,
      ∃ before after,
        instances parentT f = before ++ instances (some v.absT) v.children ++ after := by
  induction f with
  | nil => intro _ v hv; simp [visits] at hv
  | cons addr name m meshes children siblings ihc ihs =>
    intro parentT v hv
    simp only [visits, List.mem_cons, List.mem_append] at hv
    simp only [instances]
    rcases hv with rfl | hv | hv
    · exact ⟨meshes.map (fun idx => (idx, compose parentT m)), instances parentT siblings,
        by simp [List.append_assoc]⟩
    · obtain ⟨s, t, h⟩ := ihc _ v hv
      refine ⟨meshes.map (fun idx => (idx, compose parentT m)) ++ s,
        t ++ instances parentT siblings, ?_⟩
      rw [h]; simp [List.append_assoc]
    · obtain ⟨s, t, h⟩ := ihs _ v hv
      refine ⟨meshes.map (fun idx => (idx, compose parentT m))
        ++ instances (some (compose parentT m)) children ++ s, t, ?_⟩
      rw [h]; simp [List.append_assoc]

/-- `AddToJson` on the root of a tree held in the store. -/
theorem AddToJson_tree [Zero R] [Add R] [Mul R] (ids : Nat → Int) (a c : Json R)
    (nodes : List (aiNode R)) (root : Nat) (name : String) (m : aiMatrix4x4 R)
    (meshes : List Nat) (children : NodeForest R) (parent : Option Nat)
    (parentT : Option (aiMatrix4x4 R)) (fuel : Nat)
    (hst : Stored nodes parent (tree root name m meshes children))
    (hnd : (tree root name m meshes children).addrs.Nodup)
    (hpar : ParentOK nodes parent parentT (tree root name m meshes children))
    (ha : IsList a)
    (hid : ∀ idx ∈ (tree root name m meshes children).meshSlots,
      readMeshId (manifest a c) idx = some (ids idx))
    (hfuel : (tree root name m meshes children).depth ≤ fuel) :
    AddToJson fuel root ⟨nodes, manifest a c⟩
      = some ⟨storeAll nodes (flattened parentT (tree root name m meshes children)),
          manifest (appendTo a (records ids parentT (tree root name m meshes children))) c⟩ := by
  have h := visit_forest ids c (tree root name m meshes children) fuel parent parentT nodes a
    hst hnd hpar ha hid hfuel
  simp only [tree, roots, List.foldlM_cons, List.foldlM_nil, Option.bind_eq_bind,
    Option.pure_def, Option.bind_some] at h
  exact h

end Listing

end AssimpCmd

/-! ## Component file names -/

namespace AssimpCmd

section FileNames

theorem digitChar_value (k : Nat) (hk : k < 10) : (Nat.digitChar k).toNat - 48 = k := by
  interval_cases k <;> rfl

theorem foldl_toDigitsCore (fuel : Nat) :
    ∀ (n : Nat) (ds : List Char), n < fuel →
      (Nat.toDigitsCore 10 fuel n ds).foldl (fun acc c => acc * 10 + (c.toNat - 48)) 0
        = ds.foldl (fun acc c => acc * 10 + (c.toNat - 48)) n := by
  induction fuel with
  | zero => intro n ds h; omega
  | succ fuel ih =>
    intro n ds h
    simp only [Nat.toDigitsCore]
    split
    · rename_i h0
      simp only [List.foldl_cons, Nat.zero_mul, Nat.zero_add]
      rw [digitChar_value _ (Nat.mod_lt _ (by decide))]
      congr 1
      omega
    · rename_i h0
      rw [ih (n / 10) _ (by omega)]
      simp only [List.foldl_cons]
      rw [digitChar_value _ (Nat.mod_lt _ (by decide))]
      congr 1
      omega

/-- Reading the decimal representation printed by `std::to_string` gives the number back. -/
theorem decimalValue_toString (n : Nat) : decimalValue (toString n).data = n := by
  show decimalValue (Nat.toDigits 10 n) = n
  unfold decimalValue Nat.toDigits
  rw [foldl_toDigitsCore (n + 1) n [] (Nat.lt_succ_self n)]
  rfl

theorem toString_injective (i j : Nat) (h : toString i = toString j) : i = j := by
  rw [← decimalValue_toString i, ← decimalValue_toString j, h]

/-- Different mesh indices give different component file names. -/
theorem o_filename_injective (in_file : String) (i j : Nat)
    (h : o_filename in_file i = o_filename in_file j) : i = j := by
  unfold o_filename at h
  have h2 := congrArg String.data h
  simp only [String.data_append, List.append_assoc] at h2
  have h3 := List.append_cancel_left (List.append_cancel_left h2)
  have h4 := List.append_cancel_right h3
  exact toString_injective i j (String.ext h4)

end FileNames

/-! ## The extraction loop and `main` -/

section MainLemmas

variable {R : Type}

open Json NodeForest

theorem appendTo_null_ne_nil (recs : List (Json R)) (h : recs ≠ []) :
    appendTo (null : Json R) recs = array recs := by
  cases recs with
  | nil => exact absurd rfl h
  | cons r rs => rfl

theorem elements_appendTo_null (recs : List (Json R)) :
    (appendTo (null : Json R) recs).elements = recs := by
  rw [elements_appendTo]; rfl

/-- One pass of the body of the extraction loop. -/
theorem extractMesh_eq (env : Collaborators R) (sc : aiScene R) (in_file : String)
    (root : Nat) (rootNode : aiNode R) (hroot : sc.mRootNode = some root)
    (hnode : sc.nodes[root]? = some rootNode) (a c : Json R)
    (log : List (ExportCall × Bool)) (i : Nat) (hc : IsList c) (hi : i < sc.mMeshes.length) :
    extractMesh env sc in_file (manifest a c, log) i
      = some (manifest a (appendTo c [componentRecord (o_filename in_file i) i]),
          log ++ exportLog env sc rootNode in_file [i]) := by
  unfold extractMesh
  simp only [hroot, Option.some_bind, hnode, updateKey_components, push_back_eq _ _ hc,
    Option.map_some', List.getElem?_eq_getElem hi, exportLog, List.map_cons, List.map_nil,
    List.getD_eq_getElem?_getD, Option.getD_some]

theorem extract_fold (env : Collaborators R) (sc : aiScene R) (in_file : String)
    (root : Nat) (rootNode : aiNode R) (hroot : sc.mRootNode = some root)
    (hnode : sc.nodes[root]? = some rootNode) (a : Json R) :
    ∀ (l : List Nat) (c : Json R) (log : List (ExportCall × Bool)), IsList c →
      (∀ i ∈ l, i < sc.mMeshes.length) →
      l.foldlM (extractMesh env sc in_file) (manifest a c, log)
        = some (manifest a
            (appendTo c (l.map fun i => componentRecord (o_filename in_file i) i)),
            log ++ exportLog env sc rootNode in_file l) := by
  intro l
  induction l with
  | nil => intro c log _ _; simp [exportLog, appendTo]
  | cons i rest ih =>
    intro c log hc hl
    rw [List.foldlM_cons, extractMesh_eq env sc in_file root rootNode hroot hnode a c log i hc
      (hl i (List.mem_cons_self _ _))]
    simp only [Option.bind_eq_bind, Option.some_bind]
    rw [ih _ _ (isList_appendTo _ _ hc) (fun j hj => hl j (List.mem_cons_of_mem _ hj)),
      appendTo_appendTo]
    simp [exportLog]

/-- The extraction loop pushes one component record per mesh, in mesh order, and makes one
export call per mesh. -/
theorem extract_eq (env : Collaborators R) (sc : aiScene R) (in_file : String)
    (root : Nat) (rootNode : aiNode R) (hroot : sc.mRootNode = some root)
    (hnode : sc.nodes[root]? = some rootNode) :
    extract env sc in_file
      = some (manifest null (appendTo null (componentRecords in_file sc.mMeshes.length)),
          exportLog env sc rootNode in_file (List.range sc.mMeshes.length)) := by
  unfold extract
  have h := extract_fold env sc in_file root rootNode hroot hnode null
    (List.range sc.mMeshes.length) null [] (Or.inl rfl) (fun i hi => List.mem_range.mp hi)
  simpa [scenario_json_init, manifest, componentRecords] using h

/-- After the extraction loop the id stored for mesh index `idx` is `idx`. -/
theorem readMeshId_extracted (a : Json R) (in_file : String) (n idx : Nat) (h : idx < n) :
    readMeshId (manifest a (appendTo null (componentRecords in_file n))) idx
      = some (idx : Int) := by
  have hne : componentRecords (R := R) in_file n ≠ [] := by
    intro h0
    have := congrArg List.length h0
    simp [componentRecords] at this
    omega
  rw [appendTo_null_ne_nil _ hne]
  simp [readMeshId, manifest, findMember, componentRecords, componentRecord,
    List.getElem?_map, List.getElem?_range h]

end MainLemmas

end AssimpCmd

namespace AssimpCmd

section SpecFileName

theorem find_last_of_append_some (c : Char) (l2 : List Char) (i : Nat)
    (h : find_last_of l2 c = some i) :
    ∀ l1 : List Char, find_last_of (l1 ++ l2) c = some (l1.length + i) := by
  intro l1
  induction l1 with
  | nil => simp [h]
  | cons x l1 ih =>
    rw [List.cons_append, find_last_of, ih]
    simp only [List.length_cons, Option.some.injEq]
    omega

theorem find_last_of_append_none (c : Char) (l2 : List Char)
    (h : find_last_of l2 c = none) :
    ∀ l1 : List Char, find_last_of (l1 ++ l2) c = find_last_of l1 c := by
  intro l1
  induction l1 with
  | nil => simp [h, find_last_of]
  | cons x l1 ih => rw [List.cons_append, find_last_of, ih, find_last_of]

theorem find_last_of_lt (c : Char) (l : List Char) :
    ∀ i, find_last_of l c = some i → i < l.length := by
  induction l with
  | nil => intro i h; simp [find_last_of] at h
  | cons x l ih =>
    intro i h
    rw [find_last_of] at h
    cases h2 : find_last_of l c with
    | some k =>
      rw [h2] at h
      simp only [Option.some.injEq] at h
      have := ih k h2
      simp only [List.length_cons]
      omega
    | none =>
      rw [h2] at h
      simp only [List.length_cons]
      by_cases hx : x = c
      · simp only [hx, if_true, Option.some.injEq] at h; omega
      · simp only [hx, if_false] at h
        exact Option.noConfusion h

/-- Where the last full stop of the path does not come before its last `/`, the code strips
what the wording of the spec strips. -/
theorem in_file_noext_eq_spec (path : String)
    (h : ∀ i j, find_last_of path.data '.' = some i → find_last_of path.data '/' = some j →
      j < i) :
    in_file_noext path = specStripExtension path := by
  unfold in_file_noext specStripExtension
  cases hs : find_last_of path.data '/' with
  | none => simp
  | some j =>
    simp only
    have hsplit : path.data = path.data.take (j + 1) ++ path.data.drop (j + 1) :=
      (List.take_append_drop _ _).symm
    have hj := find_last_of_lt '/' _ j hs
    cases hd : find_last_of (path.data.drop (j + 1)) '.' with
    | some i =>
      have hdot := find_last_of_append_some '.' _ i hd (path.data.take (j + 1))
      rw [← hsplit] at hdot
      simp only [List.length_take] at hdot
      rw [hdot]
      simp only
      rw [Nat.min_eq_left (Nat.succ_le_of_lt hj)]
    | none =>
      have hdot := find_last_of_append_none '.' _ hd (path.data.take (j + 1))
      rw [← hsplit] at hdot
      simp only
      cases ht : find_last_of (path.data.take (j + 1)) '.' with
      | none => rw [hdot, ht]
      | some i =>
        rw [ht] at hdot
        have h1 := h i j hdot hs
        have h2 := find_last_of_lt '.' _ i ht
        rw [List.length_take, Nat.min_eq_left (Nat.succ_le_of_lt hj)] at h2
        omega

theorem o_filename_eq_spec (path : String) (n : Nat)
    (h : ∀ i j, find_last_of path.data '.' = some i → find_last_of path.data '/' = some j →
      j < i) :
    o_filename path n = specFileName path n := by
  unfold o_filename specFileName
  rw [in_file_noext_eq_spec path h]

end SpecFileName

end AssimpCmd

namespace AssimpCmd

section MainReturns

variable {R : Type}

open Json NodeForest

/-- Every call made on a forest held in the store finds the node with the mesh slots the call
works with. -/
theorem visits_stored [Add R] [Mul R] (f : NodeForest R) :
    ∀ (nodes : List (aiNode R)) (parent : Option Nat) (parentT : Option (aiMatrix4x4 R)),
      Stored nodes parent f → ∀ v ∈ visits parentT f,
        ∃ n, nodes[v.addr]? = some n ∧ n.mMeshes = v.meshes
          ∧ n.mChildren = roots v.children := by
  induction f with
  | nil => intro _ _ _ _ v hv; simp [visits] at hv
  | cons addr name m meshes children siblings ihc ihs =>
    intro nodes parent parentT hst v hv
    obtain ⟨h1, h2, h3⟩ := hst
    simp only [visits, List.mem_cons, List.mem_append] at hv
    rcases hv with rfl | hv | hv
    · exact ⟨_, h1, rfl, rfl⟩
    · exact ihc _ _ _ h2 v hv
    · exact ihs _ _ _ h3 v hv

theorem flattened_nodup [Add R] [Mul R] (f : NodeForest R)
    (parentT : Option (aiMatrix4x4 R)) (h : f.addrs.Nodup) :
    ((flattened parentT f).map Prod.fst).Nodup := by
  rw [flattened_addrs]; exact h

/-- A run of `main` on a scene whose nodes form a tree and whose mesh slots are in range. -/
theorem main_returns [Zero R] [Add R] [Mul R] (env : Collaborators R)
    (prog in_file out_json : String) (sc : aiScene R) (root : Nat) (name : String)
    (m : aiMatrix4x4 R) (meshes : List Nat) (children : NodeForest R)
    (hread : env.ReadFile in_file = some sc) (hroot : sc.mRootNode = some root)
    (hst : Stored sc.nodes none (tree root name m meshes children))
    (hnd : (tree root name m meshes children).addrs.Nodup)
    (hidx : ∀ idx ∈ (tree root name m meshes children).meshSlots, idx < sc.mMeshes.length) :
    main env [prog, in_file, out_json]
      = Outcome.returned 1 ["Total components: " ++ toString sc.mMeshes.length ++ "\n"]
          (exportLog env sc ⟨name, m, none, roots children, meshes⟩ in_file
            (List.range sc.mMeshes.length))
          (some (out_json,
            manifest
              (appendTo null
                (records (fun i => (i : Int)) none (tree root name m meshes children)))
              (appendTo null (componentRecords in_file sc.mMeshes.length)))) := by
  have hfuel : (tree root name m meshes children).depth ≤ sc.nodes.length + 1 :=
    Nat.le_succ_of_le (depth_le_length _ _ _ hst hnd)
  have hwalk := AddToJson_tree (fun i => (i : Int)) null
    (appendTo null (componentRecords in_file sc.mMeshes.length)) sc.nodes root name m meshes
    children none none (sc.nodes.length + 1) hst hnd rfl (Or.inl rfl)
    (fun idx h => readMeshId_extracted null in_file _ idx (hidx idx h)) hfuel
  have hext := extract_eq env sc in_file root _ hroot hst.1
  simp only [main, List.length_cons, List.length_nil, Nat.reduceAdd, Nat.reduceLT, if_false,
    List.getElem?_cons_succ, List.getElem?_cons_zero, hread, hext, hroot, hwalk]

end MainReturns

end AssimpCmd

/-! ## The claims about `AddToJson` -/

namespace AssimpCmd

section FlattenerClaims

variable {R : Type}

open Json NodeForest

/-- The chain `root → A → B` of the composition property: with the identity at the root, `t` at
`A` and `u` at `B`, the run leaves `t` at `A` and `t * u` at `B`. -/
theorem chain_composition [CommRing R] (t u : aiMatrix4x4 R) (a c : Json R) (ha : IsList a) :
    AddToJson 3 0
        ⟨[⟨"root", 1, none, [1], []⟩, ⟨"A", t, some 0, [2], []⟩, ⟨"B", u, some 1, [], []⟩],
          manifest a c⟩
      = some ⟨[⟨"root", 1, none, [1], []⟩, ⟨"A", t, some 0, [2], []⟩,
          ⟨"B", t * u, some 1, [], []⟩], manifest a c⟩ := by
  have h := AddToJson_tree (fun _ => 0) a c
    [⟨"root", 1, none, [1], []⟩, ⟨"A", t, some 0, [2], []⟩, ⟨"B", u, some 1, [], []⟩]
    0 "root" 1 [] (cons 1 "A" t [] (cons 2 "B" u [] nil nil) nil) none none 3
    ⟨rfl, ⟨rfl, ⟨rfl, trivial, trivial⟩, trivial⟩, trivial⟩ (by simp [tree, addrs]) rfl ha
    (by intro idx hidx; simp [tree, meshSlots] at hidx) (by simp [tree, depth])
  rw [h]
  simp [flattened, tree, storeAll, setTransformation, compose, aiMatrix4x4.matOne_mul, records,
    instances, appendTo]

/-- C1: on a tree held in the store whose root has no parent, `AddToJson` returns, the root
keeps its transform, and every node ends up with the ordered product of the original local
transforms on the path from the root down to it (root first, node last), its other fields
unchanged. -/
theorem AddToJson_composes_path [CommRing R] (ids : Nat → Int) (a c : Json R)
    (nodes : List (aiNode R)) (root : Nat) (name : String) (m : aiMatrix4x4 R)
    (meshes : List Nat) (children : NodeForest R) (fuel : Nat)
    (hst : Stored nodes none (tree root name m meshes children))
    (hnd : (tree root name m meshes children).addrs.Nodup)
    (ha : IsList a)
    (hid : ∀ idx ∈ (tree root name m meshes children).meshSlots,
      readMeshId (manifest a c) idx = some (ids idx))
    (hfuel : (tree root name m meshes children).depth ≤ fuel) :
    ∃ w2, AddToJson fuel root ⟨nodes, manifest a c⟩ = some w2
      ∧ w2.nodes[root]? = some ⟨name, m, none, roots children, meshes⟩
      ∧ ∀ p ∈ (tree root name m meshes children).paths,
          ∃ n, nodes[p.1]? = some n
            ∧ w2.nodes[p.1]? = some { n with mTransformation := p.2.prod } := by
  have hrun := AddToJson_tree ids a c nodes root name m meshes children none none fuel
    hst hnd rfl ha hid hfuel
  have hall : ∀ p ∈ (tree root name m meshes children).paths,
      ∃ n, nodes[p.1]? = some n
        ∧ (storeAll nodes (flattened none (tree root name m meshes children)))[p.1]?
            = some { n with mTransformation := p.2.prod } := by
    intro p hp
    have hmem : (p.1, p.2.prod) ∈ flattened none (tree root name m meshes children) := by
      rw [flattened_eq_paths]
      exact List.mem_map.mpr ⟨p, hp, rfl⟩
    have haddr : p.1 ∈ (tree root name m meshes children).addrs := by
      rw [← flattened_addrs _ none]
      exact List.mem_map.mpr ⟨_, hmem, rfl⟩
    have hlt := stored_lt_length _ nodes none hst p.1 haddr
    refine ⟨nodes[p.1], List.getElem?_eq_getElem hlt, ?_⟩
    exact storeAll_getElem?_of_mem _ _ _ nodes _ (flattened_nodup _ _ hnd) hmem
      (List.getElem?_eq_getElem hlt)
  refine ⟨_, hrun, ?_, hall⟩
  obtain ⟨n, hn, hn2⟩ := hall (root, [m]) (by simp [tree, paths])
  rw [hst.1] at hn
  cases hn
  simpa using hn2

/-- C3: on a tree held in the store, `AddToJson` appends for every visited node one record per
mesh slot, in slot order, all with the absolute transform the node ends up with (an array of 16
entries); the assembly list grows by the sum of the mesh-slot counts of all nodes. -/
theorem AddToJson_record_per_slot [Zero R] [Add R] [Mul R] (ids : Nat → Int) (a c : Json R)
    (nodes : List (aiNode R)) (root : Nat) (name : String) (m : aiMatrix4x4 R)
    (meshes : List Nat) (children : NodeForest R) (fuel : Nat)
    (hst : Stored nodes none (tree root name m meshes children))
    (hnd : (tree root name m meshes children).addrs.Nodup)
    (ha : IsList a)
    (hid : ∀ idx ∈ (tree root name m meshes children).meshSlots,
      readMeshId (manifest a c) idx = some (ids idx))
    (hfuel : (tree root name m meshes children).depth ≤ fuel) :
    ∃ w2 a2, AddToJson fuel root ⟨nodes, manifest a c⟩ = some w2
      ∧ w2.scenario_json = manifest a2 c
      ∧ a2.elements = a.elements
          ++ ((visits none (tree root name m meshes children)).map fun v =>
                v.meshes.map fun idx => assemblyRecord (ids idx) v.absT).flatten
      ∧ (∀ v ∈ visits none (tree root name m meshes children),
          (∃ n, w2.nodes[v.addr]? = some n ∧ n.mTransformation = v.absT
            ∧ n.mMeshes = v.meshes)
          ∧ (v.meshes.map fun idx => assemblyRecord (ids idx) v.absT).length = v.meshes.length
          ∧ ∀ idx ∈ v.meshes,
              (assemblyRecord (ids idx) v.absT).member? "component"
                  = some (number_integer (ids idx))
              ∧ (assemblyRecord (ids idx) v.absT).member? "transform"
                  = some (array (v.absT.toList.map number_float))
              ∧ (v.absT.toList.map number_float).length = 16)
      ∧ a2.elements.length
          = a.elements.length + (tree root name m meshes children).slotCounts.sum := by
  have hrun := AddToJson_tree ids a c nodes root name m meshes children none none fuel
    hst hnd rfl ha hid hfuel
  refine ⟨_, _, hrun, rfl, ?_, ?_, ?_⟩
  · rw [elements_appendTo, records_eq_visits]
  · intro v hv
    refine ⟨?_, by simp, ?_⟩
    · obtain ⟨n, hn, hm, _⟩ := visits_stored _ nodes none none hst v hv
      have hmem : (v.addr, v.absT) ∈ flattened none (tree root name m meshes children) := by
        rw [flattened_eq_visits]
        exact List.mem_map.mpr ⟨v, hv, rfl⟩
      exact ⟨_, storeAll_getElem?_of_mem _ _ _ nodes n (flattened_nodup _ _ hnd) hmem hn,
        rfl, hm⟩
    · intro idx _
      simp [assemblyRecord, member?, findMember, aiMatrix4x4.toList]
  · rw [elements_appendTo, List.length_append, records, List.length_map, length_instances]

/-- C5: on a tree held in the store, the records `AddToJson` appends are the depth-first
pre-order listing of the mesh instances (`instances`: the slots of a node, then the listings of
its child subtrees in stored order); the records of the descendants of a node form a contiguous
part of it, and each of them carries the absolute transform of that node as a left factor. -/
theorem AddToJson_preorder [CommRing R] (ids : Nat → Int) (a c : Json R)
    (nodes : List (aiNode R)) (root : Nat) (name : String) (m : aiMatrix4x4 R)
    (meshes : List Nat) (children : NodeForest R) (fuel : Nat)
    (hst : Stored nodes none (tree root name m meshes children))
    (hnd : (tree root name m meshes children).addrs.Nodup)
    (ha : IsList a)
    (hid : ∀ idx ∈ (tree root name m meshes children).meshSlots,
      readMeshId (manifest a c) idx = some (ids idx))
    (hfuel : (tree root name m meshes children).depth ≤ fuel) :
    ∃ w2 a2, AddToJson fuel root ⟨nodes, manifest a c⟩ = some w2
      ∧ w2.scenario_json = manifest a2 c
      ∧ a2.elements = a.elements
          ++ (instances none (tree root name m meshes children)).map
              (fun p => assemblyRecord (ids p.1) p.2)
      ∧ ∀ v ∈ visits none (tree root name m meshes children),
          (∃ n, w2.nodes[v.addr]? = some n ∧ n.mTransformation = v.absT)
          ∧ (∃ before after, instances none (tree root name m meshes children)
              = before ++ instances (some v.absT) v.children ++ after)
          ∧ ∀ r ∈ instances (some v.absT) v.children, ∃ x, r.2 = v.absT * x := by
  have hrun := AddToJson_tree ids a c nodes root name m meshes children none none fuel
    hst hnd rfl ha hid hfuel
  refine ⟨_, _, hrun, rfl, ?_, ?_⟩
  · rw [elements_appendTo, records]
  · intro v hv
    refine ⟨?_, instances_contiguous _ none v hv, instances_left_factor _ _⟩
    obtain ⟨n, hn, _, _⟩ := visits_stored _ nodes none none hst v hv
    have hmem : (v.addr, v.absT) ∈ flattened none (tree root name m meshes children) := by
      rw [flattened_eq_visits]
      exact List.mem_map.mpr ⟨v, hv, rfl⟩
    exact ⟨_, storeAll_getElem?_of_mem _ _ _ nodes n (flattened_nodup _ _ hnd) hmem hn, rfl⟩

/-- C6: a node with local transform `m` and one mesh slot, visited under a parent that holds
the identity, appends a record whose transform array has 16 entries, entry `j*4+k` being
`m[j][k]`. -/
theorem AddToJson_identity_parent [CommRing R] (ids : Nat → Int) (a c : Json R)
    (nodes : List (aiNode R)) (node parentAddr : Nat) (parentNode : aiNode R) (name : String)
    (m : aiMatrix4x4 R) (idx : Nat) (children : NodeForest R) (fuel : Nat)
    (hst : Stored nodes (some parentAddr) (tree node name m [idx] children))
    (hnd : (tree node name m [idx] children).addrs.Nodup)
    (hparent : nodes[parentAddr]? = some parentNode)
    (hone : parentNode.mTransformation = 1)
    (hout : parentAddr ∉ (tree node name m [idx] children).addrs)
    (ha : IsList a)
    (hid : ∀ i ∈ (tree node name m [idx] children).meshSlots,
      readMeshId (manifest a c) i = some (ids i))
    (hfuel : (tree node name m [idx] children).depth ≤ fuel) :
    ∃ w2 a2 arr rest, AddToJson fuel node ⟨nodes, manifest a c⟩ = some w2
      ∧ w2.scenario_json = manifest a2 c
      ∧ a2.elements = a.elements
          ++ object [("component", number_integer (ids idx)), ("transform", array arr)] :: rest
      ∧ arr.length = 16
      ∧ arr = m.toList.map number_float
      ∧ ∀ j k, j < 4 → k < 4 → arr[j * 4 + k]? = some (number_float (m.get j k)) := by
  have hrun := AddToJson_tree ids a c nodes node name m [idx] children (some parentAddr)
    (some 1) fuel hst hnd ⟨hout, parentNode, hparent, by rw [hone]⟩ ha hid hfuel
  refine ⟨_, _, m.toList.map number_float,
    records ids (some m) children, hrun, rfl, ?_, rfl, rfl, ?_⟩
  · rw [elements_appendTo]
    simp [tree, records_cons, compose, aiMatrix4x4.matOne_mul, assemblyRecord, records,
      instances]
  · intro j k hj hk
    rw [List.getElem?_map, aiMatrix4x4.toList_getElem? m j k hj hk]
    rfl

end FlattenerClaims

end AssimpCmd

/-! ## The claims about `main` -/

namespace AssimpCmd

section EntryPointClaims

variable {R : Type}

open Json NodeForest

/-- C2: for a scene with `N` meshes (and a root node, whose name the loop reads), the extraction
loop returns with a components list of exactly `N` records, the record at position `i` has id
`i` and the file name computed for `i`, and the file names of different positions differ. -/
theorem extract_component_records (env : Collaborators R) (sc : aiScene R) (in_file : String)
    (root : Nat) (rootNode : aiNode R) (hroot : sc.mRootNode = some root)
    (hnode : sc.nodes[root]? = some rootNode) :
    ∃ comps log, extract env sc in_file = some (manifest null comps, log)
      ∧ comps.elements.length = sc.mMeshes.length
      ∧ (∀ i, i < sc.mMeshes.length →
          comps.elements[i]?
            = some (object [("file", string (o_filename in_file i)), ("id", number_integer i)]))
      ∧ ∀ i j, i < sc.mMeshes.length → j < sc.mMeshes.length → i ≠ j →
          o_filename in_file i ≠ o_filename in_file j := by
  refine ⟨_, _, extract_eq env sc in_file root rootNode hroot hnode, ?_, ?_, ?_⟩
  · rw [elements_appendTo_null]; simp [componentRecords]
  · intro i hi
    rw [elements_appendTo_null]
    simp [componentRecords, componentRecord, List.getElem?_map, List.getElem?_range hi]
  · intro i j _ _ hij h
    exact hij (o_filename_injective in_file i j h)

/-- C4: for a scene with `N` meshes whose nodes form a tree and reference only mesh indices
below `N`, the extraction loop followed by `AddToJson` on the root returns; whatever the
assembly list holds, the lookup of a referenced index `idx` yields the id `idx`, which is the id
of the component record at position `idx`; and the assembly records carry, in order, the mesh
indices of their slots. -/
theorem extract_then_AddToJson [Zero R] [Add R] [Mul R] (env : Collaborators R)
    (sc : aiScene R) (in_file : String) (root : Nat) (name : String) (m : aiMatrix4x4 R)
    (meshes : List Nat) (children : NodeForest R) (fuel : Nat)
    (hroot : sc.mRootNode = some root)
    (hst : Stored sc.nodes none (tree root name m meshes children))
    (hnd : (tree root name m meshes children).addrs.Nodup)
    (hidx : ∀ idx ∈ (tree root name m meshes children).meshSlots, idx < sc.mMeshes.length)
    (hfuel : (tree root name m meshes children).depth ≤ fuel) :
    ∃ comps log w2 a2, extract env sc in_file = some (manifest null comps, log)
      ∧ AddToJson fuel root ⟨sc.nodes, manifest null comps⟩ = some w2
      ∧ w2.scenario_json = manifest a2 comps
      ∧ (∀ idx ∈ (tree root name m meshes children).meshSlots,
          (∀ a, readMeshId (manifest a comps) idx = some (idx : Int))
          ∧ comps.elements[idx]?
              = some (object [("file", string (o_filename in_file idx)),
                  ("id", number_integer idx)]))
      ∧ a2.elements = (instances none (tree root name m meshes children)).map
          (fun p => assemblyRecord (p.1 : Int) p.2)
      ∧ a2.elements.map (fun r => r.member? "component")
          = (tree root name m meshes children).meshSlots.map
              (fun (idx : Nat) => some (number_integer (idx : Int))) := by
  have hrun := AddToJson_tree (fun i => (i : Int)) null
    (appendTo null (componentRecords in_file sc.mMeshes.length)) sc.nodes root name m meshes
    children none none fuel hst hnd rfl (Or.inl rfl)
    (fun idx h => readMeshId_extracted null in_file _ idx (hidx idx h)) hfuel
  refine ⟨_, _, _, _, extract_eq env sc in_file root _ hroot hst.1, hrun, rfl, ?_, ?_, ?_⟩
  · intro idx h
    refine ⟨fun a => readMeshId_extracted a in_file _ idx (hidx idx h), ?_⟩
    rw [elements_appendTo_null]
    simp [componentRecords, componentRecord, List.getElem?_map,
      List.getElem?_range (hidx idx h)]
  · rw [elements_appendTo_null, records]
  · rw [elements_appendTo_null, records, ← instances_fst _ none]
    simp [List.map_map, Function.comp_def, assemblyRecord, member?, findMember]

/-- C7, evaluated on a scene without meshes: `main` returns and the manifest it writes holds
`null` under both keys, not an empty array. -/
theorem main_empty_scene :
    main ⟨fun _ => some emptyScene, fun _ => true⟩ ["assimp", "empty.obj", "out.json"]
        = Outcome.returned 1 ["Total components: 0\n"] []
            (some ("out.json", object [("assembly", null), ("components", null)]))
      ∧ (object [("assembly", null), ("components", null)] : Json ℤ)
          ≠ object [("assembly", array []), ("components", array [])] := by
  refine ⟨rfl, ?_⟩
  intro h
  simp at h

/-- C8, evaluated on a path whose last full stop lies in a directory name: the code cuts the
path at that full stop, while the file name has no extension to strip. -/
theorem o_filename_dotted_directory :
    o_filename "models.v2/teapot" 0 = "models_part_0.ply"
      ∧ specFileName "models.v2/teapot" 0 = "models.v2/teapot_part_0.ply" := by
  decide

/-- With no argument after the program name `main` prints the message and returns `0` without
calling a collaborator. -/
theorem main_usage [Zero R] [Add R] [Mul R] (env : Collaborators R) (argv : List String)
    (h : argv.length < 2) :
    main env argv = Outcome.returned 0 ["Invalid command\n"] [] none := by
  simp [main, h]

/-- C9, evaluated on an invocation with the input path as only argument: the guard `argc < 2`
does not fire, and the run reads `argv[2]`, the null pointer, instead of taking the usage-error
path that an invocation without arguments takes. -/
theorem main_one_argument [Zero R] [Add R] [Mul R] (env : Collaborators R)
    (prog in_file : String) :
    main env [prog, in_file] = Outcome.undefined
      ∧ main env [prog] = Outcome.returned 0 ["Invalid command\n"] [] none :=
  ⟨rfl, rfl⟩

/-- A scene without meshes whose nodes form a tree: `main` returns and writes a manifest that
holds `null` under both keys. -/
theorem main_no_meshes [Zero R] [Add R] [Mul R] (env : Collaborators R)
    (prog in_file out_json : String) (sc : aiScene R) (root : Nat) (name : String)
    (m : aiMatrix4x4 R) (meshes : List Nat) (children : NodeForest R)
    (hread : env.ReadFile in_file = some sc) (hroot : sc.mRootNode = some root)
    (hst : Stored sc.nodes none (tree root name m meshes children))
    (hnd : (tree root name m meshes children).addrs.Nodup)
    (hnone : sc.mMeshes = [])
    (hidx : ∀ idx ∈ (tree root name m meshes children).meshSlots, idx < sc.mMeshes.length) :
    main env [prog, in_file, out_json]
      = Outcome.returned 1 ["Total components: 0\n"] []
          (some (out_json, object [("assembly", null), ("components", null)])) := by
  have hslots : (tree root name m meshes children).meshSlots = [] := by
    apply List.eq_nil_iff_forall_not_mem.mpr
    intro idx h
    have := hidx idx h
    rw [hnone] at this
    exact Nat.not_lt_zero _ this
  have hinst : instances none (tree root name m meshes children) = [] := by
    have := instances_fst (tree root name m meshes children) none
    rw [hslots] at this
    exact List.map_eq_nil_iff.mp this
  rw [main_returns env prog in_file out_json sc root name m meshes children hread hroot hst hnd
    hidx]
  simp [hnone, records, hinst, appendTo, componentRecords, exportLog, manifest]
  rfl

/-- C10: on a scene whose nodes form a tree and whose mesh slots are in range, `main` returns
status `1` and writes the same manifest, with one component record per mesh, for every exporter:
one export call is made per mesh and its result only ends up in the log of the calls. -/
theorem main_ignores_export_results [Zero R] [Add R] [Mul R]
    (ReadFile : String → Option (aiScene R)) (prog in_file out_json : String)
    (sc : aiScene R) (root : Nat) (name : String) (m : aiMatrix4x4 R) (meshes : List Nat)
    (children : NodeForest R)
    (hread : ReadFile in_file = some sc) (hroot : sc.mRootNode = some root)
    (hst : Stored sc.nodes none (tree root name m meshes children))
    (hnd : (tree root name m meshes children).addrs.Nodup)
    (hidx : ∀ idx ∈ (tree root name m meshes children).meshSlots, idx < sc.mMeshes.length) :
    ∃ stdout a2 comps,
      comps.elements = componentRecords in_file sc.mMeshes.length
      ∧ comps.elements.length = sc.mMeshes.length
      ∧ ∀ Export : ExportCall → Bool, ∃ log,
          main ⟨ReadFile, Export⟩ [prog, in_file, out_json]
              = Outcome.returned 1 stdout log (some (out_json, manifest a2 comps))
            ∧ log.length = sc.mMeshes.length
            ∧ log.map Prod.snd = log.map fun p => Export p.1 := by
  refine ⟨["Total components: " ++ toString sc.mMeshes.length ++ "\n"],
    appendTo null (records (fun i => (i : Int)) none (tree root name m meshes children)),
    appendTo null (componentRecords in_file sc.mMeshes.length), ?_, ?_, ?_⟩
  · rw [elements_appendTo_null]
  · rw [elements_appendTo_null]; simp [componentRecords]
  · intro Export
    refine ⟨_, main_returns ⟨ReadFile, Export⟩ prog in_file out_json sc root name m meshes
      children hread hroot hst hnd hidx, ?_, ?_⟩
    · simp [exportLog]
    · simp [exportLog, List.map_map, Function.comp_def]

end EntryPointClaims

end AssimpCmd

namespace AssimpCmd

section ExportIndependence

variable {R : Type}

open Json

theorem extractMesh_fst (env1 env2 : Collaborators R) (sc : aiScene R) (in_file : String)
    (st1 st2 : Json R × List (ExportCall × Bool)) (i : Nat) (h : st1.1 = st2.1) :
    (extractMesh env1 sc in_file st1 i).map Prod.fst
      = (extractMesh env2 sc in_file st2 i).map Prod.fst := by
  unfold extractMesh
  rw [h]
  cases sc.mMeshes[i]? with
  | none => rfl
  | some mesh =>
    cases (sc.mRootNode.bind fun r => sc.nodes[r]?) with
    | none => rfl
    | some rootNode =>
      simp only [Option.some_bind, Option.map_map]
      rfl

theorem extract_fold_fst (env1 env2 : Collaborators R) (sc : aiScene R) (in_file : String) :
    ∀ (l : List Nat) (st1 st2 : Json R × List (ExportCall × Bool)), st1.1 = st2.1 →
      (l.foldlM (extractMesh env1 sc in_file) st1).map Prod.fst
        = (l.foldlM (extractMesh env2 sc in_file) st2).map Prod.fst := by
  intro l
  induction l with
  | nil => intro st1 st2 h; simp [h]
  | cons i rest ih =>
    intro st1 st2 h
    have hstep := extractMesh_fst env1 env2 sc in_file st1 st2 i h
    rw [List.foldlM_cons, List.foldlM_cons]
    cases h1 : extractMesh env1 sc in_file st1 i with
    | none =>
      cases h2 : extractMesh env2 sc in_file st2 i with
      | none => rfl
      | some r2 => rw [h1, h2] at hstep; exact Option.noConfusion hstep
    | some r1 =>
      cases h2 : extractMesh env2 sc in_file st2 i with
      | none => rw [h1, h2] at hstep; exact Option.noConfusion hstep
      | some r2 =>
        rw [h1, h2] at hstep
        simp only [Option.map_some', Option.some.injEq] at hstep
        simp only [Option.bind_eq_bind, Option.some_bind]
        exact ih r1 r2 hstep

/-- On every input, well-formed or not, the exit status and the manifest written by `main` do
not depend on the results the exporter gives. -/
theorem main_export_independent [Zero R] [Add R] [Mul R]
    (ReadFile : String → Option (aiScene R)) (e1 e2 : ExportCall → Bool)
    (argv : List String) :
    (main ⟨ReadFile, e1⟩ argv).status? = (main ⟨ReadFile, e2⟩ argv).status?
      ∧ (main ⟨ReadFile, e1⟩ argv).manifest? = (main ⟨ReadFile, e2⟩ argv).manifest? := by
  unfold main
  by_cases hlen : argv.length < 2
  · simp [hlen]
  · simp only [hlen, if_false]
    cases argv[1]? with
    | none => exact ⟨rfl, rfl⟩
    | some in_file =>
      cases argv[2]? with
      | none => exact ⟨rfl, rfl⟩
      | some out_json =>
        simp only
        cases ReadFile in_file with
        | none => exact ⟨rfl, rfl⟩
        | some sc =>
          simp only
          have hfst := extract_fold_fst ⟨ReadFile, e1⟩ ⟨ReadFile, e2⟩ sc in_file
            (List.range sc.mMeshes.length) (scenario_json_init, []) (scenario_json_init, []) rfl
          unfold extract
          cases h1 : List.foldlM (extractMesh ⟨ReadFile, e1⟩ sc in_file)
              (scenario_json_init, []) (List.range sc.mMeshes.length) with
          | none =>
            cases h2 : List.foldlM (extractMesh ⟨ReadFile, e2⟩ sc in_file)
                (scenario_json_init, []) (List.range sc.mMeshes.length) with
            | none => exact ⟨rfl, rfl⟩
            | some r2 => rw [h1, h2] at hfst; exact Option.noConfusion hfst
          | some r1 =>
            cases h2 : List.foldlM (extractMesh ⟨ReadFile, e2⟩ sc in_file)
                (scenario_json_init, []) (List.range sc.mMeshes.length) with
            | none => rw [h1, h2] at hfst; exact Option.noConfusion hfst
            | some r2 =>
              rw [h1, h2] at hfst
              simp only [Option.map_some', Option.some.injEq] at hfst
              obtain ⟨sj1, log1⟩ := r1
              obtain ⟨sj2, log2⟩ := r2
              simp only at hfst
              subst hfst
              simp only
              cases sc.mRootNode with
              | none => exact ⟨rfl, rfl⟩
              | some root =>
                simp only
                cases AddToJson (sc.nodes.length + 1) root ⟨sc.nodes, sj1⟩ with
                | none => exact ⟨rfl, rfl⟩
                | some w => exact ⟨rfl, rfl⟩

/-- The results of the export calls do reach the log of the calls: on the sample scene an
exporter that always fails and one that always succeeds give different logs. -/
theorem exportResults_differ :
    (main ⟨fun _ => some sampleScene, fun _ => false⟩
        ["assimp", "a.obj", "out.json"]).exportResults = [false, false]
      ∧ (main ⟨fun _ => some sampleScene, fun _ => true⟩
        ["assimp", "a.obj", "out.json"]).exportResults = [true, true] := by
  constructor <;> rfl

end ExportIndependence

end AssimpCmd

/-! ## The claims on the sample data -/

namespace AssimpCmd

section SampleFacts

open Json NodeForest

theorem sample_stored : Stored sampleNodes none sampleTree :=
  ⟨rfl, ⟨rfl, ⟨rfl, trivial, trivial⟩, trivial⟩, trivial⟩

theorem sample_nodup : sampleTree.addrs.Nodup := by decide

theorem sample_ids : ∀ idx ∈ sampleTree.meshSlots,
    readMeshId (manifest null (sampleComponents ℤ)) idx = some (idx : Int) := by
  intro idx h
  have hlt : idx < 2 := by
    simp [sampleTree, tree, meshSlots] at h
    omega
  exact readMeshId_extracted null "a.obj" 2 idx hlt

theorem sample_in_range : ∀ idx ∈ sampleTree.meshSlots, idx < sampleScene.mMeshes.length := by
  decide

theorem sampleChild_stored : Stored sampleChildNodes (some 0) sampleChildTree :=
  ⟨rfl, trivial, trivial⟩

theorem sampleChild_ids : ∀ idx ∈ sampleChildTree.meshSlots,
    readMeshId (manifest null (sampleComponents ℚ)) idx = some (idx : Int) := by
  intro idx h
  have hlt : idx < 2 := by
    simp [sampleChildTree, tree, meshSlots] at h
    omega
  exact readMeshId_extracted null "a.obj" 2 idx hlt

/-- The run on the sample chain, evaluated: `B` ends up with the composed translation. -/
theorem sample_run :
    (AddToJson 3 0 ⟨sampleNodes, manifest null (sampleComponents ℤ)⟩).map
        (fun w => w.nodes.map fun n => n.mTransformation)
      = some [1, translation 1 2 3, translation 11 22 33] := by
  rfl

end SampleFacts

section Witnesses

open Json NodeForest

/-- C1 on the chain `root → A → B` of `sampleTree`. -/
theorem AddToJson_composes_path_witness :
    Stored sampleNodes none sampleTree ∧ sampleTree.addrs.Nodup
      ∧ ∃ w2, AddToJson 3 0 ⟨sampleNodes, manifest null (sampleComponents ℤ)⟩ = some w2
          ∧ w2.nodes[0]? = some ⟨"root", 1, none, [1], []⟩
          ∧ ∀ p ∈ sampleTree.paths,
              ∃ n, sampleNodes[p.1]? = some n
                ∧ w2.nodes[p.1]? = some { n with mTransformation := p.2.prod } :=
  ⟨sample_stored, sample_nodup,
    AddToJson_composes_path (fun i => (i : Int)) null (sampleComponents ℤ) sampleNodes 0 "root" 1 []
      (cons 1 "A" (translation 1 2 3) [0] (cons 2 "B" (translation 10 20 30) [1, 0] nil nil) nil)
      3 sample_stored sample_nodup (Or.inl rfl) sample_ids (by decide)⟩

/-- C3 on `sampleTree`, whose nodes have 0, 1 and 2 mesh slots. -/
theorem AddToJson_record_per_slot_witness :
    Stored sampleNodes none sampleTree ∧ sampleTree.addrs.Nodup
      ∧ ∃ w2 a2, AddToJson 3 0 ⟨sampleNodes, manifest null (sampleComponents ℤ)⟩ = some w2
          ∧ w2.scenario_json = manifest a2 (sampleComponents ℤ)
          ∧ a2.elements = (null : Json ℤ).elements
              ++ ((visits none sampleTree).map fun v =>
                    v.meshes.map fun (idx : Nat) => assemblyRecord (idx : Int) v.absT).flatten
          ∧ (∀ v ∈ visits none sampleTree,
              (∃ n, w2.nodes[v.addr]? = some n ∧ n.mTransformation = v.absT
                ∧ n.mMeshes = v.meshes)
              ∧ (v.meshes.map fun (idx : Nat) => assemblyRecord (idx : Int) v.absT).length
                  = v.meshes.length
              ∧ ∀ idx ∈ v.meshes,
                  (assemblyRecord (idx : Int) v.absT).member? "component"
                      = some (number_integer (idx : Int))
                  ∧ (assemblyRecord (idx : Int) v.absT).member? "transform"
                      = some (array (v.absT.toList.map number_float))
                  ∧ (v.absT.toList.map number_float).length = 16)
          ∧ a2.elements.length = (null : Json ℤ).elements.length + sampleTree.slotCounts.sum :=
  ⟨sample_stored, sample_nodup,
    AddToJson_record_per_slot (fun i => (i : Int)) null (sampleComponents ℤ) sampleNodes 0 "root" 1
      []
      (cons 1 "A" (translation 1 2 3) [0] (cons 2 "B" (translation 10 20 30) [1, 0] nil nil) nil)
      3 sample_stored sample_nodup (Or.inl rfl) sample_ids (by decide)⟩

/-- C5 on `sampleTree`. -/
theorem AddToJson_preorder_witness :
    Stored sampleNodes none sampleTree ∧ sampleTree.addrs.Nodup
      ∧ ∃ w2 a2, AddToJson 3 0 ⟨sampleNodes, manifest null (sampleComponents ℤ)⟩ = some w2
          ∧ w2.scenario_json = manifest a2 (sampleComponents ℤ)
          ∧ a2.elements = (null : Json ℤ).elements
              ++ (instances none sampleTree).map (fun p => assemblyRecord (p.1 : Int) p.2)
          ∧ ∀ v ∈ visits none sampleTree,
              (∃ n, w2.nodes[v.addr]? = some n ∧ n.mTransformation = v.absT)
              ∧ (∃ before after, instances none sampleTree
                  = before ++ instances (some v.absT) v.children ++ after)
              ∧ ∀ r ∈ instances (some v.absT) v.children, ∃ x, r.2 = v.absT * x :=
  ⟨sample_stored, sample_nodup,
    AddToJson_preorder (fun i => (i : Int)) null (sampleComponents ℤ) sampleNodes 0 "root" 1 []
      (cons 1 "A" (translation 1 2 3) [0] (cons 2 "B" (translation 10 20 30) [1, 0] nil nil) nil)
      3 sample_stored sample_nodup (Or.inl rfl) sample_ids (by decide)⟩

/-- C6 on a node whose sixteen entries are `i * 1.5`, under a root with the identity
transform. -/
theorem AddToJson_identity_parent_witness :
    Stored sampleChildNodes (some 0) sampleChildTree
      ∧ (⟨"root", 1, none, [1], []⟩ : aiNode ℚ).mTransformation = 1
      ∧ ∃ w2 a2 arr rest,
          AddToJson 1 1 ⟨sampleChildNodes, manifest null (sampleComponents ℚ)⟩ = some w2
          ∧ w2.scenario_json = manifest a2 (sampleComponents ℚ)
          ∧ a2.elements = (null : Json ℚ).elements
              ++ object [("component", number_integer 0), ("transform", array arr)] :: rest
          ∧ arr.length = 16
          ∧ arr = sampleMatrix.toList.map number_float
          ∧ ∀ j k, j < 4 → k < 4 →
              arr[j * 4 + k]? = some (number_float (sampleMatrix.get j k)) :=
  ⟨sampleChild_stored, rfl,
    AddToJson_identity_parent (fun i => (i : Int)) null (sampleComponents ℚ) sampleChildNodes
      1 0 ⟨"root", 1, none, [1], []⟩ "part" sampleMatrix 0 nil 1 sampleChild_stored (by decide)
      rfl rfl (by decide) (Or.inl rfl) sampleChild_ids (by decide)⟩

/-- C2 on `sampleScene`, which has two meshes. -/
theorem extract_component_records_witness :
    sampleScene.mRootNode = some 0
      ∧ ∃ comps log,
          extract ⟨fun _ => some sampleScene, fun _ => false⟩ sampleScene "a.obj"
              = some (manifest null comps, log)
          ∧ comps.elements.length = sampleScene.mMeshes.length
          ∧ (∀ i, i < sampleScene.mMeshes.length →
              comps.elements[i]?
                = some (object [("file", string (o_filename "a.obj" i)),
                    ("id", number_integer i)]))
          ∧ ∀ i j, i < sampleScene.mMeshes.length → j < sampleScene.mMeshes.length → i ≠ j →
              o_filename "a.obj" i ≠ o_filename "a.obj" j :=
  ⟨rfl,
    extract_component_records ⟨fun _ => some sampleScene, fun _ => false⟩ sampleScene "a.obj" 0
      ⟨"root", 1, none, [1], []⟩ rfl rfl⟩

/-- C4 on `sampleScene`. -/
theorem extract_then_AddToJson_witness :
    (∀ idx ∈ sampleTree.meshSlots, idx < sampleScene.mMeshes.length)
      ∧ ∃ comps log w2 a2,
          extract ⟨fun _ => some sampleScene, fun _ => false⟩ sampleScene "a.obj"
              = some (manifest null comps, log)
          ∧ AddToJson 3 0 ⟨sampleScene.nodes, manifest null comps⟩ = some w2
          ∧ w2.scenario_json = manifest a2 comps
          ∧ (∀ idx ∈ sampleTree.meshSlots,
              (∀ a, readMeshId (manifest a comps) idx = some (idx : Int))
              ∧ comps.elements[idx]?
                  = some (object [("file", string (o_filename "a.obj" idx)),
                      ("id", number_integer idx)]))
          ∧ a2.elements = (instances none sampleTree).map
              (fun p => assemblyRecord (p.1 : Int) p.2)
          ∧ a2.elements.map (fun r => r.member? "component")
              = sampleTree.meshSlots.map
                  (fun (idx : Nat) => some (number_integer (idx : Int))) :=
  ⟨sample_in_range,
    extract_then_AddToJson ⟨fun _ => some sampleScene, fun _ => false⟩ sampleScene "a.obj" 0
      "root" 1 []
      (cons 1 "A" (translation 1 2 3) [0] (cons 2 "B" (translation 10 20 30) [1, 0] nil nil) nil)
      3 rfl sample_stored sample_nodup sample_in_range (by decide)⟩

/-- C10 on `sampleScene`: every exporter, also one that always fails, leads to the same
manifest with two component records. -/
theorem main_ignores_export_results_witness :
    (∀ idx ∈ sampleTree.meshSlots, idx < sampleScene.mMeshes.length)
      ∧ ∃ stdout a2 comps,
          comps.elements = componentRecords "a.obj" sampleScene.mMeshes.length
          ∧ comps.elements.length = sampleScene.mMeshes.length
          ∧ ∀ Export : ExportCall → Bool, ∃ log,
              main ⟨fun _ => some sampleScene, Export⟩ ["assimp", "a.obj", "out.json"]
                  = Outcome.returned 1 stdout log (some ("out.json", manifest a2 comps))
                ∧ log.length = sampleScene.mMeshes.length
                ∧ log.map Prod.snd = log.map fun p => Export p.1 :=
  ⟨sample_in_range,
    main_ignores_export_results (fun _ => some sampleScene) "assimp" "a.obj" "out.json"
      sampleScene 0 "root" 1 []
      (cons 1 "A" (translation 1 2 3) [0] (cons 2 "B" (translation 10 20 30) [1, 0] nil nil) nil)
      rfl rfl sample_stored sample_nodup sample_in_range⟩

end Witnesses

end AssimpCmd
